import Mathlib

/-!
Verification development for the st-func SDOF response repository.

The repository has two relevant source units:
* `src/src/vector.rs` — a generic fixed-length numeric container `Vector<T>`
  (construction, indexing, elementwise add/sub guarded by `assert!`);
* `src/st_func_core/src/dynamic/sdof.rs` — the Nigam–Jennings exact
  step-integration routine `nigam_jennings` producing an `SdofResponse`.

Rust `f64` samples are modelled by real numbers; Rust panics (failed
`assert!`, slice index out of bounds) are modelled by the `RunResult.panicked`
outcome.  The code defines no recoverable error type, so `RunResult` has no
error-carrying constructor.
-/

namespace StFunc

/-- Outcome of running a Rust function in the model: either a normal return
value, or a process-terminating panic (failed `assert!` or out-of-bounds
slice index).  The source defines no `Result`/error enum, so there is no
recoverable-error constructor. -/
inductive RunResult (α : Type) where
  | ok (val : α)
  | panicked
  deriving DecidableEq, Repr

/-- Model of `Vector<T>` from `src/src/vector.rs`: a `size` field plus the
backing storage `data` (Rust `Vec<T>`). -/
structure Vector (α : Type) where
  size : Nat
  data : List α
  deriving DecidableEq, Repr

/-- The construction invariant of `Vector<T>`: the recorded `size` equals the
length of the backing storage.  Both constructors establish it and no
operation breaks it. -/
def Vector.wf {α : Type} (v : Vector α) : Prop := v.size = v.data.length

instance {α : Type} (v : Vector α) : Decidable v.wf := by
  unfold Vector.wf; infer_instance

/-- `Vector::new(size)`: zero-filled vector of the given size
(`vec![T::default(); size]`; for `f64` the default is `0.0`). -/
def Vector.new (α : Type) [Zero α] (size : Nat) : Vector α :=
  ⟨size, List.replicate size 0⟩

/-- `Vector::from_vec(data)`: size is derived from the supplied list. -/
def Vector.from_vec {α : Type} (data : List α) : Vector α :=
  ⟨data.length, data⟩

/-- Model of the missing `len` accessor (`src/st_func_core`'s vector module is
not under `src/`; `nigam_jennings` calls `y0_ddot.len()`).  Modelled from the
spec: the Numeric Sequence has a fixed length `n` set at construction, so
`len` returns the `size` field. -/
def Vector.len {α : Type} (v : Vector α) : Nat := v.size

/-- `Index::index` (`&self.data[index]`): Rust slice indexing panics when the
index is not below the storage length. -/
def Vector.index {α : Type} (v : Vector α) (i : Nat) : RunResult α :=
  if h : i < v.data.length then .ok (v.data.get ⟨i, h⟩) else .panicked

/-- `IndexMut::index_mut` followed by a store (`v[i] = x`): panics exactly
when reading would, otherwise replaces the element. -/
def Vector.index_set {α : Type} (v : Vector α) (i : Nat) (x : α) :
    RunResult (Vector α) :=
  if i < v.data.length then .ok ⟨v.size, v.data.set i x⟩ else .panicked

/-- `Add::add`: `assert!(self.size == other.size)` (a panic on mismatch), then
an elementwise loop `result[i] = self[i] + other[i]` for `i < size` into a
fresh `Vector::new(self.size)`. -/
def Vector.add {α : Type} [Zero α] [Add α] (v w : Vector α) :
    RunResult (Vector α) :=
  if v.size = w.size then
    .ok ⟨v.size, (List.range v.size).map fun i =>
      v.data.getD i 0 + w.data.getD i 0⟩
  else .panicked

/-- `Sub::sub`: same shape as `add` with elementwise subtraction. -/
def Vector.sub {α : Type} [Zero α] [Sub α] (v w : Vector α) :
    RunResult (Vector α) :=
  if v.size = w.size then
    .ok ⟨v.size, (List.range v.size).map fun i =>
      v.data.getD i 0 - w.data.getD i 0⟩
  else .panicked

/-- `SdofResponse` from `src/st_func_core/src/dynamic/sdof.rs`: the bundle of
absolute acceleration, relative velocity and relative displacement series. -/
structure SdofResponse where
  absolute_acceleration : Vector ℝ
  relative_velocity : Vector ℝ
  relative_displacement : Vector ℝ

/-- `omega_dash` (damped natural circular frequency): `√(1 − h²) · ω`. -/
noncomputable def omega_dash (omega h : ℝ) : ℝ :=
  Real.sqrt (1 - h * h) * omega

/-- Coefficient `a11` exactly as in the source. -/
noncomputable def a11 (delta_t omega h : ℝ) : ℝ :=
  Real.exp (-h * omega * delta_t) *
    (h / Real.sqrt (1 - h * h) * Real.sin (omega_dash omega h * delta_t) +
      Real.cos (omega_dash omega h * delta_t))

/-- Coefficient `a12` exactly as in the source. -/
noncomputable def a12 (delta_t omega h : ℝ) : ℝ :=
  Real.exp (-h * omega * delta_t) / omega_dash omega h *
    Real.sin (omega_dash omega h * delta_t)

/-- Coefficient `a21` exactly as in the source. -/
noncomputable def a21 (delta_t omega h : ℝ) : ℝ :=
  -omega / Real.sqrt (1 - h * h) * Real.exp (-h * omega * delta_t) *
    Real.sin (omega_dash omega h * delta_t)

/-- Coefficient `a22` exactly as in the source. -/
noncomputable def a22 (delta_t omega h : ℝ) : ℝ :=
  Real.exp (-h * omega * delta_t) *
    (Real.cos (omega_dash omega h * delta_t) -
      h / Real.sqrt (1 - h * h) * Real.sin (omega_dash omega h * delta_t))

/-- Coefficient `b11` exactly as in the source (note the source's grouping
`2h/(ω³Δt) + (1/ω²)·cos`, reproduced verbatim). -/
noncomputable def b11 (delta_t omega h : ℝ) : ℝ :=
  Real.exp (-h * omega * delta_t) *
      (((2 * h * h - 1) / (omega * omega * delta_t) + h / omega) *
          Real.sin (omega_dash omega h * delta_t) / omega_dash omega h +
        (2 * h / (omega * omega * omega * delta_t) +
          1 / (omega * omega) * Real.cos (omega_dash omega h * delta_t))) -
    2 * h / (omega * omega * omega * delta_t)

/-- Coefficient `b12` exactly as in the source. -/
noncomputable def b12 (delta_t omega h : ℝ) : ℝ :=
  -Real.exp (-h * omega * delta_t) *
      ((2 * h * h - 1) / (omega * omega * delta_t) *
          Real.sin (omega_dash omega h * delta_t) / omega_dash omega h +
        2 * h / (omega * omega * omega * delta_t) *
          Real.cos (omega_dash omega h * delta_t)) -
    1 / (omega * omega) + 2 * h / (omega * omega * omega * delta_t)

/-- Coefficient `b21` exactly as in the source. -/
noncomputable def b21 (delta_t omega h : ℝ) : ℝ :=
  Real.exp (-h * omega * delta_t) *
      (((2 * h * h - 1) / (omega * omega * delta_t) + h / omega) *
          (Real.cos (omega_dash omega h * delta_t) -
            h / Real.sqrt (1 - h * h) * Real.sin (omega_dash omega h * delta_t)) -
        (2 * h / (omega * omega * omega * delta_t) + 1 / (omega * omega)) *
          (omega_dash omega h * Real.sin (omega_dash omega h * delta_t) +
            h * omega * Real.cos (omega_dash omega h * delta_t))) +
    1 / (omega * omega * delta_t)

/-- Coefficient `b22` exactly as in the source. -/
noncomputable def b22 (delta_t omega h : ℝ) : ℝ :=
  -Real.exp (-h * omega * delta_t) *
      ((2 * h * h - 1) / (omega * omega * delta_t) *
          (Real.cos (omega_dash omega h * delta_t) -
            h / Real.sqrt (1 - h * h) * Real.sin (omega_dash omega h * delta_t)) -
        2 * h / (omega * omega * omega * delta_t) *
          (omega_dash omega h * Real.sin (omega_dash omega h * delta_t) +
            h * omega * Real.cos (omega_dash omega h * delta_t))) -
    1 / (omega * omega * delta_t)

/-- The `for i in 1..n` loop of `nigam_jennings`, one list element per
executed iteration.  Each iteration computes the current displacement,
velocity and absolute acceleration from the previous state and the previous
and current ground-acceleration samples, exactly as the loop body does, and
threads the `*_pre` state variables.  Stated over any commutative ring so the
same recursion also runs on `ℚ`. -/
def njRecur {α : Type} [CommRing α]
    (c11 c12 c21 c22 k11 k12 k21 k22 hv ov : α) :
    List α → α → α → α → List (α × α × α)
  | [], _, _, _ => []
  | y0c :: rest, y_pre, y_dot_pre, y0_pre =>
    let y_cur := c11 * y_pre + c12 * y_dot_pre + k11 * y0_pre + k12 * y0c
    let y_dot_cur := c21 * y_pre + c22 * y_dot_pre + k21 * y0_pre + k22 * y0c
    let y_y0_cur := 2 * hv * ov * y_dot_cur + ov * ov * y_cur
    (y_cur, y_dot_cur, y_y0_cur) ::
      njRecur c11 c12 c21 c22 k11 k12 k21 k22 hv ov rest y_cur y_dot_cur y0c

/-- The response bundle built by `nigam_jennings` once the initial read
`y0_ddot[0]` has succeeded.  The source allocates three zero-filled vectors of
length `n = y0_ddot.len()` and the loop overwrites indices `1..n`, so index
`0` keeps its zero-initialized default and the written values are exactly the
per-iteration values of `njRecur` run over the remaining samples with the
initial state `y_pre = 0`, `y_dot_pre = 0`, `y0_ddot_pre = y0_ddot[0]`.
In-loop sample reads `y0_ddot[i]` are modelled in-bounds, which is exact for
every vector satisfying the construction invariant `wf`. -/
noncomputable def njResponse (y0_ddot : Vector ℝ) (delta_t omega h : ℝ) :
    SdofResponse :=
  let n := y0_ddot.len
  let steps := njRecur (a11 delta_t omega h) (a12 delta_t omega h)
    (a21 delta_t omega h) (a22 delta_t omega h) (b11 delta_t omega h)
    (b12 delta_t omega h) (b21 delta_t omega h) (b22 delta_t omega h) h omega
    y0_ddot.data.tail 0 0 (y0_ddot.data.headD 0)
  { absolute_acceleration := ⟨n, 0 :: steps.map fun s => s.2.2⟩
    relative_velocity := ⟨n, 0 :: steps.map fun s => s.2.1⟩
    relative_displacement := ⟨n, 0 :: steps.map fun s => s.1⟩ }

/-- `nigam_jennings` from `src/st_func_core/src/dynamic/sdof.rs`.  The
function performs no input validation: the only way it can fail is the
unguarded initial read `y0_ddot[0]`, which panics exactly when the backing
storage is empty; otherwise it returns the computed bundle. -/
noncomputable def nigam_jennings (y0_ddot : Vector ℝ)
    (delta_t omega h : ℝ) : RunResult SdofResponse :=
  if y0_ddot.data.isEmpty then .panicked
  else .ok (njResponse y0_ddot delta_t omega h)

/-- Relative displacement sample at step `i` of a response bundle. -/
noncomputable def SdofResponse.dispAt (r : SdofResponse) (i : Nat) : ℝ :=
  r.relative_displacement.data.getD i 0

/-- Relative velocity sample at step `i` of a response bundle. -/
noncomputable def SdofResponse.velAt (r : SdofResponse) (i : Nat) : ℝ :=
  r.relative_velocity.data.getD i 0

/-- Absolute acceleration sample at step `i` of a response bundle. -/
noncomputable def SdofResponse.accAt (r : SdofResponse) (i : Nat) : ℝ :=
  r.absolute_acceleration.data.getD i 0

section RecurLemmas

variable {α : Type} [CommRing α]
variable (c11 c12 c21 c22 k11 k12 k21 k22 hv ov : α)

/-- The loop executes once per remaining sample. -/
theorem njRecur_length (g : List α) : ∀ (p q r : α),
    (njRecur c11 c12 c21 c22 k11 k12 k21 k22 hv ov g p q r).length =
      g.length := by
  induction g with
  | nil => intro p q r; rfl
  | cons a t ih => intro p q r; simp [njRecur, ih]

/-- First executed iteration, written with `getD`. -/
theorem njRecur_getD_zero (a : α) (t : List α) (p q r : α) :
    (njRecur c11 c12 c21 c22 k11 k12 k21 k22 hv ov (a :: t) p q r).getD 0
        (0, 0, 0) =
      (c11 * p + c12 * q + k11 * r + k12 * a,
        c21 * p + c22 * q + k21 * r + k22 * a,
        2 * hv * ov * (c21 * p + c22 * q + k21 * r + k22 * a) +
          ov * ov * (c11 * p + c12 * q + k11 * r + k12 * a)) := by
  simp [njRecur]

/-- Every later iteration reads the state produced by the previous one:
the displacement and velocity emitted at position `j+1` are the recurrence
applied to the values emitted at position `j` and to the samples at `j` and
`j+1` of the remaining-sample list. -/
theorem njRecur_getD_succ (g : List α) : ∀ (p q r : α) (j : Nat),
    j + 1 < g.length →
    ((njRecur c11 c12 c21 c22 k11 k12 k21 k22 hv ov g p q r).getD (j + 1)
        (0, 0, 0)).1 =
      c11 * ((njRecur c11 c12 c21 c22 k11 k12 k21 k22 hv ov g p q r).getD j
          (0, 0, 0)).1 +
        c12 * ((njRecur c11 c12 c21 c22 k11 k12 k21 k22 hv ov g p q r).getD j
          (0, 0, 0)).2.1 +
        k11 * g.getD j 0 + k12 * g.getD (j + 1) 0 ∧
    ((njRecur c11 c12 c21 c22 k11 k12 k21 k22 hv ov g p q r).getD (j + 1)
        (0, 0, 0)).2.1 =
      c21 * ((njRecur c11 c12 c21 c22 k11 k12 k21 k22 hv ov g p q r).getD j
          (0, 0, 0)).1 +
        c22 * ((njRecur c11 c12 c21 c22 k11 k12 k21 k22 hv ov g p q r).getD j
          (0, 0, 0)).2.1 +
        k21 * g.getD j 0 + k22 * g.getD (j + 1) 0 := by
  induction g with
  | nil => intro p q r j hj; simp at hj
  | cons a t ih =>
    intro p q r j hj
    match j with
    | 0 =>
      match t, hj with
      | b :: t', _ =>
        constructor <;> simp [njRecur]
    | j' + 1 =>
      have hj' : j' + 1 < t.length := by
        simpa using hj
      have := ih (c11 * p + c12 * q + k11 * r + k12 * a)
        (c21 * p + c22 * q + k21 * r + k22 * a) a j' hj'
      simpa [njRecur] using this

/-- Every emitted absolute-acceleration value is `2hω·ẏ + ω²·y` of the
displacement and velocity emitted at the same position. -/
theorem njRecur_acc (g : List α) : ∀ (p q r : α) (j : Nat),
    j < g.length →
    ((njRecur c11 c12 c21 c22 k11 k12 k21 k22 hv ov g p q r).getD j
        (0, 0, 0)).2.2 =
      2 * hv * ov *
          ((njRecur c11 c12 c21 c22 k11 k12 k21 k22 hv ov g p q r).getD j
            (0, 0, 0)).2.1 +
        ov * ov *
          ((njRecur c11 c12 c21 c22 k11 k12 k21 k22 hv ov g p q r).getD j
            (0, 0, 0)).1 := by
  induction g with
  | nil => intro p q r j hj; simp at hj
  | cons a t ih =>
    intro p q r j hj
    match j with
    | 0 => simp [njRecur]
    | j' + 1 =>
      have hj' : j' < t.length := by simpa using hj
      have := ih (c11 * p + c12 * q + k11 * r + k12 * a)
        (c21 * p + c22 * q + k21 * r + k22 * a) a j' hj'
      simpa [njRecur] using this

/-- On an all-zero sample list with zero state, every iteration emits zeros. -/
theorem njRecur_zero (m : Nat) :
    njRecur c11 c12 c21 c22 k11 k12 k21 k22 hv ov
        (List.replicate m (0 : α)) 0 0 0 =
      List.replicate m ((0 : α), (0 : α), (0 : α)) := by
  induction m with
  | zero => rfl
  | succ m ih =>
    simp only [List.replicate_succ, njRecur, mul_zero, add_zero, zero_add, ih]

end RecurLemmas

/-- Abbreviation for the iteration list produced inside `njResponse`. -/
noncomputable def njSteps (g : Vector ℝ) (delta_t omega h : ℝ) :
    List (ℝ × ℝ × ℝ) :=
  njRecur (a11 delta_t omega h) (a12 delta_t omega h) (a21 delta_t omega h)
    (a22 delta_t omega h) (b11 delta_t omega h) (b12 delta_t omega h)
    (b21 delta_t omega h) (b22 delta_t omega h) h omega
    g.data.tail 0 0 (g.data.headD 0)

theorem njResponse_disp (g : Vector ℝ) (delta_t omega h : ℝ) :
    (njResponse g delta_t omega h).relative_displacement =
      ⟨g.len, 0 :: (njSteps g delta_t omega h).map fun s => s.1⟩ := rfl

theorem njResponse_vel (g : Vector ℝ) (delta_t omega h : ℝ) :
    (njResponse g delta_t omega h).relative_velocity =
      ⟨g.len, 0 :: (njSteps g delta_t omega h).map fun s => s.2.1⟩ := rfl

theorem njResponse_acc (g : Vector ℝ) (delta_t omega h : ℝ) :
    (njResponse g delta_t omega h).absolute_acceleration =
      ⟨g.len, 0 :: (njSteps g delta_t omega h).map fun s => s.2.2⟩ := rfl

theorem data_ne_nil_of_len {α : Type} (v : Vector α) (hwf : v.wf)
    (hn : 1 ≤ v.len) : v.data ≠ [] := by
  intro h
  rw [Vector.wf] at hwf
  rw [Vector.len, hwf, h] at hn
  simp at hn

theorem nigam_jennings_run_nonempty (g : Vector ℝ) (delta_t omega h : ℝ)
    (hne : g.data ≠ []) :
    nigam_jennings g delta_t omega h = .ok (njResponse g delta_t omega h) := by
  unfold nigam_jennings
  rw [if_neg]
  simp [hne]

theorem getD_map_comp {β γ : Type} (f : β → γ) (l : List β) (i : Nat)
    (d : β) : (l.map f).getD i (f d) = f (l.getD i d) := by
  rcases lt_or_ge i l.length with hi | hi
  · rw [List.getD_eq_getElem _ _ (by simpa using hi),
      List.getD_eq_getElem _ _ hi, List.getElem_map]
  · rw [List.getD_eq_default _ _ (by simpa using hi),
      List.getD_eq_default _ _ hi]

theorem njSteps_of_zero_data (g : Vector ℝ) (delta_t omega h : ℝ) (m : Nat)
    (hz : g.data = List.replicate (m + 1) 0) :
    njSteps g delta_t omega h = List.replicate m ((0:ℝ), (0:ℝ), (0:ℝ)) := by
  unfold njSteps
  rw [hz, List.replicate_succ]
  simpa using njRecur_zero (a11 delta_t omega h) (a12 delta_t omega h)
    (a21 delta_t omega h) (a22 delta_t omega h) (b11 delta_t omega h)
    (b12 delta_t omega h) (b21 delta_t omega h) (b22 delta_t omega h)
    h omega m

/-- C3 — rest fixed point: with a well-formed all-zero ground-acceleration
sequence of length `n ≥ 1` and valid parameters, the call succeeds and all
three returned series are identically zero. -/
theorem nigam_jennings_rest_fixed_point (g : Vector ℝ) (delta_t omega h : ℝ)
    (hwf : g.wf) (hn : 1 ≤ g.len) (hz : g.data = List.replicate g.len 0)
    (hdt : 0 < delta_t) (hom : 0 < omega) (hh0 : 0 ≤ h) (hh1 : h < 1) :
    nigam_jennings g delta_t omega h = .ok (njResponse g delta_t omega h)
    ∧ (njResponse g delta_t omega h).relative_displacement.data =
        List.replicate g.len 0
    ∧ (njResponse g delta_t omega h).relative_velocity.data =
        List.replicate g.len 0
    ∧ (njResponse g delta_t omega h).absolute_acceleration.data =
        List.replicate g.len 0 := by
  obtain ⟨m, hm⟩ : ∃ m, g.len = m + 1 :=
    ⟨g.len - 1, (Nat.succ_pred_eq_of_pos hn).symm⟩
  have hne : g.data ≠ [] := data_ne_nil_of_len g hwf hn
  have hsteps := njSteps_of_zero_data g delta_t omega h m (by rw [← hm]; exact hz)
  refine ⟨nigam_jennings_run_nonempty g delta_t omega h hne, ?_, ?_, ?_⟩
  · rw [njResponse_disp]
    show 0 :: ((njSteps g delta_t omega h).map fun s => s.1) =
      List.replicate g.len 0
    rw [hsteps, hm, List.map_replicate, List.replicate_succ]
  · rw [njResponse_vel]
    show 0 :: ((njSteps g delta_t omega h).map fun s => s.2.1) =
      List.replicate g.len 0
    rw [hsteps, hm, List.map_replicate, List.replicate_succ]
  · rw [njResponse_acc]
    show 0 :: ((njSteps g delta_t omega h).map fun s => s.2.2) =
      List.replicate g.len 0
    rw [hsteps, hm, List.map_replicate, List.replicate_succ]

/-- Witness for C3 at a concrete all-zero input of length 3. -/
theorem nigam_jennings_rest_fixed_point_witness :
    nigam_jennings (Vector.from_vec [(0:ℝ), 0, 0]) 1 1 0 =
      .ok (njResponse (Vector.from_vec [(0:ℝ), 0, 0]) 1 1 0)
    ∧ (njResponse (Vector.from_vec [(0:ℝ), 0, 0]) 1 1 0).relative_displacement.data =
        List.replicate (Vector.from_vec [(0:ℝ), 0, 0]).len 0
    ∧ (njResponse (Vector.from_vec [(0:ℝ), 0, 0]) 1 1 0).relative_velocity.data =
        List.replicate (Vector.from_vec [(0:ℝ), 0, 0]).len 0
    ∧ (njResponse (Vector.from_vec [(0:ℝ), 0, 0]) 1 1 0).absolute_acceleration.data =
        List.replicate (Vector.from_vec [(0:ℝ), 0, 0]).len 0 :=
  nigam_jennings_rest_fixed_point (Vector.from_vec [(0:ℝ), 0, 0]) 1 1 0
    rfl (by decide) rfl (by norm_num) (by norm_num) le_rfl (by norm_num)

/-- C5 — length preservation: for a well-formed input of length `n ≥ 1` and
valid parameters, the call succeeds and each returned series has recorded
size and storage length exactly `n`. -/
theorem nigam_jennings_length_preservation (g : Vector ℝ)
    (delta_t omega h : ℝ) (hwf : g.wf) (hn : 1 ≤ g.len)
    (hdt : 0 < delta_t) (hom : 0 < omega) (hh0 : 0 ≤ h) (hh1 : h < 1) :
    nigam_jennings g delta_t omega h = .ok (njResponse g delta_t omega h)
    ∧ (njResponse g delta_t omega h).relative_displacement.len = g.len
    ∧ (njResponse g delta_t omega h).relative_displacement.data.length = g.len
    ∧ (njResponse g delta_t omega h).relative_velocity.len = g.len
    ∧ (njResponse g delta_t omega h).relative_velocity.data.length = g.len
    ∧ (njResponse g delta_t omega h).absolute_acceleration.len = g.len
    ∧ (njResponse g delta_t omega h).absolute_acceleration.data.length =
        g.len := by
  have hne : g.data ≠ [] := data_ne_nil_of_len g hwf hn
  have hdl : g.data.length = g.len := by rw [Vector.len, hwf]
  have hsl : ∀ f : ℝ × ℝ × ℝ → ℝ,
      (0 :: (njSteps g delta_t omega h).map f).length = g.len := by
    intro f
    simp only [List.length_cons, List.length_map]
    unfold njSteps
    rw [njRecur_length, List.length_tail, hdl]
    omega
  refine ⟨nigam_jennings_run_nonempty g delta_t omega h hne, ?_, ?_, ?_, ?_,
    ?_, ?_⟩
  · rw [njResponse_disp]; rfl
  · rw [njResponse_disp]; exact hsl _
  · rw [njResponse_vel]; rfl
  · rw [njResponse_vel]; exact hsl _
  · rw [njResponse_acc]; rfl
  · rw [njResponse_acc]; exact hsl _

/-- Witness for C5 at a concrete length-2 input. -/
theorem nigam_jennings_length_preservation_witness :
    nigam_jennings (Vector.from_vec [(1:ℝ), 2]) 1 1 0 =
      .ok (njResponse (Vector.from_vec [(1:ℝ), 2]) 1 1 0)
    ∧ (njResponse (Vector.from_vec [(1:ℝ), 2]) 1 1 0).relative_displacement.len =
        (Vector.from_vec [(1:ℝ), 2]).len
    ∧ (njResponse (Vector.from_vec [(1:ℝ), 2]) 1 1 0).relative_displacement.data.length =
        (Vector.from_vec [(1:ℝ), 2]).len
    ∧ (njResponse (Vector.from_vec [(1:ℝ), 2]) 1 1 0).relative_velocity.len =
        (Vector.from_vec [(1:ℝ), 2]).len
    ∧ (njResponse (Vector.from_vec [(1:ℝ), 2]) 1 1 0).relative_velocity.data.length =
        (Vector.from_vec [(1:ℝ), 2]).len
    ∧ (njResponse (Vector.from_vec [(1:ℝ), 2]) 1 1 0).absolute_acceleration.len =
        (Vector.from_vec [(1:ℝ), 2]).len
    ∧ (njResponse (Vector.from_vec [(1:ℝ), 2]) 1 1 0).absolute_acceleration.data.length =
        (Vector.from_vec [(1:ℝ), 2]).len :=
  nigam_jennings_length_preservation (Vector.from_vec [(1:ℝ), 2]) 1 1 0
    rfl (by decide) (by norm_num) (by norm_num) le_rfl (by norm_num)

/-- C7 — boundary `n = 1`: with a single-sample well-formed input and valid
parameters, the call succeeds, the displacement and velocity series are the
single zero-initialized sample, and no recurrence iteration is executed (the
series contain nothing beyond that initial sample). -/
theorem nigam_jennings_boundary_single (g : Vector ℝ) (delta_t omega h : ℝ)
    (hwf : g.wf) (hn : g.len = 1)
    (hdt : 0 < delta_t) (hom : 0 < omega) (hh0 : 0 ≤ h) (hh1 : h < 1) :
    nigam_jennings g delta_t omega h = .ok (njResponse g delta_t omega h)
    ∧ (njResponse g delta_t omega h).relative_displacement.data = [0]
    ∧ (njResponse g delta_t omega h).relative_velocity.data = [0] := by
  have hdl : g.data.length = 1 := by rw [← hwf]; exact hn
  obtain ⟨a, ha⟩ := List.length_eq_one.mp hdl
  have hsteps : njSteps g delta_t omega h = [] := by
    unfold njSteps
    rw [ha]
    rfl
  refine ⟨nigam_jennings_run_nonempty g delta_t omega h (by rw [ha]; simp),
    ?_, ?_⟩
  · rw [njResponse_disp]
    show 0 :: ((njSteps g delta_t omega h).map fun s => s.1) = [0]
    rw [hsteps]
    rfl
  · rw [njResponse_vel]
    show 0 :: ((njSteps g delta_t omega h).map fun s => s.2.1) = [0]
    rw [hsteps]
    rfl

/-- Witness for C7 at a concrete one-sample input with nonzero sample. -/
theorem nigam_jennings_boundary_single_witness :
    nigam_jennings (Vector.from_vec [(4:ℝ)]) 1 1 0 =
      .ok (njResponse (Vector.from_vec [(4:ℝ)]) 1 1 0)
    ∧ (njResponse (Vector.from_vec [(4:ℝ)]) 1 1 0).relative_displacement.data = [0]
    ∧ (njResponse (Vector.from_vec [(4:ℝ)]) 1 1 0).relative_velocity.data = [0] :=
  nigam_jennings_boundary_single (Vector.from_vec [(4:ℝ)]) 1 1 0
    rfl rfl (by norm_num) (by norm_num) le_rfl (by norm_num)

/-- C10 — the absolute-acceleration sample at index 0 is the
zero-initialized default for every parameter combination and every
well-formed input of length at least 1, independent of `g[0]`. -/
theorem nigam_jennings_acc_zero_at_start (g : Vector ℝ) (delta_t omega h : ℝ)
    (hwf : g.wf) (hn : 1 ≤ g.len) :
    nigam_jennings g delta_t omega h = .ok (njResponse g delta_t omega h)
    ∧ (njResponse g delta_t omega h).accAt 0 = 0 := by
  refine ⟨nigam_jennings_run_nonempty g delta_t omega h
    (data_ne_nil_of_len g hwf hn), ?_⟩
  rw [SdofResponse.accAt, njResponse_acc]
  simp

/-- Witness for C10 with `g[0] = 5 ≠ 0` and arbitrary (even invalid)
parameters. -/
theorem nigam_jennings_acc_zero_at_start_witness :
    nigam_jennings (Vector.from_vec [(5:ℝ)]) 1 1 3 =
      .ok (njResponse (Vector.from_vec [(5:ℝ)]) 1 1 3)
    ∧ (njResponse (Vector.from_vec [(5:ℝ)]) 1 1 3).accAt 0 = 0 :=
  nigam_jennings_acc_zero_at_start (Vector.from_vec [(5:ℝ)]) 1 1 3
    rfl (by decide)

/-- C8 — determinism: the engine is a pure function of its arguments; two
calls whose ground-acceleration samples, recorded sizes, `Δt`, `ω` and `h`
coincide produce the same outcome, failing or succeeding. -/
theorem nigam_jennings_deterministic (g1 g2 : Vector ℝ)
    (dt1 dt2 om1 om2 h1 h2 : ℝ) (hsz : g1.size = g2.size)
    (hdata : g1.data = g2.data) (hdt : dt1 = dt2) (hom : om1 = om2)
    (hh : h1 = h2) :
    nigam_jennings g1 dt1 om1 h1 = nigam_jennings g2 dt2 om2 h2 := by
  cases g1
  cases g2
  cases hsz
  cases hdata
  cases hdt
  cases hom
  cases hh
  rfl

/-- Witness for C8: two syntactically identical calls. -/
theorem nigam_jennings_deterministic_witness :
    nigam_jennings (Vector.from_vec [(1:ℝ), 2]) (1/100) 3 (1/2) =
      nigam_jennings (Vector.from_vec [(1:ℝ), 2]) (1/100) 3 (1/2) :=
  nigam_jennings_deterministic (Vector.from_vec [(1:ℝ), 2])
    (Vector.from_vec [(1:ℝ), 2]) (1/100) (1/100) 3 3 (1/2) (1/2)
    rfl rfl rfl rfl rfl

/-- C4 (amended) — the engine performs no input validation: whatever the
parameter values (valid or not), a call with nonempty storage returns the
computed bundle, and a call with empty storage aborts with a panic at the
unguarded read `y0_ddot[0]` — not with an `EmptyInput` or `InvalidParameter`
error, neither of which exists in the code. -/
theorem nigam_jennings_no_validation (g : Vector ℝ) (delta_t omega h : ℝ) :
    (g.data = [] → nigam_jennings g delta_t omega h = .panicked)
    ∧ (g.data ≠ [] →
        nigam_jennings g delta_t omega h =
          .ok (njResponse g delta_t omega h)) := by
  constructor
  · intro he
    unfold nigam_jennings
    rw [if_pos]
    simp [he]
  · exact nigam_jennings_run_nonempty g delta_t omega h

/-- Counterexample for C4 as stated: a call with `h = 2 ≥ 1` (and valid
`ω = 1 > 0`, `Δt = 1 > 0`, `n = 1`) does not fail at all — it returns a
response bundle — so the engine does not fail with `InvalidParameter` on
invalid damping. -/
theorem nigam_jennings_no_validation_cex :
    nigam_jennings (Vector.from_vec [(1:ℝ)]) 1 1 2 =
      .ok (njResponse (Vector.from_vec [(1:ℝ)]) 1 1 2) :=
  nigam_jennings_run_nonempty (Vector.from_vec [(1:ℝ)]) 1 1 2 (by simp [Vector.from_vec])

/-- Witness for C4's amended statement: the empty call panics, the nonempty
call (with the same parameters) returns normally. -/
theorem nigam_jennings_no_validation_witness :
    nigam_jennings (Vector.from_vec ([] : List ℝ)) 1 1 0 = .panicked
    ∧ nigam_jennings (Vector.from_vec [(2:ℝ)]) 1 1 0 =
        .ok (njResponse (Vector.from_vec [(2:ℝ)]) 1 1 0) :=
  ⟨(nigam_jennings_no_validation (Vector.from_vec ([] : List ℝ)) 1 1 0).1 rfl,
   (nigam_jennings_no_validation (Vector.from_vec [(2:ℝ)]) 1 1 0).2
     (by simp [Vector.from_vec])⟩

/-- C6 (amended) — on sequences of differing recorded sizes, `add` and `sub`
unconditionally abort via the failed `assert!` (a process-terminating panic,
not a recoverable `LengthMismatch` error value, which the code does not
define); no truncated or padded result is ever produced. -/
theorem vector_add_sub_mismatch {α : Type} [Zero α] [Add α] [Sub α]
    (v w : Vector α) (hne : v.size ≠ w.size) :
    Vector.add v w = .panicked ∧ Vector.sub v w = .panicked := by
  constructor
  · unfold Vector.add
    rw [if_neg hne]
  · unfold Vector.sub
    rw [if_neg hne]

/-- Counterexample for C6 as stated: adding or subtracting a length-1 and a
length-2 sequence terminates in a panic (the model of the failed `assert!`),
not in a recoverable `LengthMismatch` error result. -/
theorem vector_add_sub_mismatch_cex :
    Vector.add (Vector.from_vec [(1:ℚ)]) (Vector.from_vec [(1:ℚ), 2]) =
      .panicked
    ∧ Vector.sub (Vector.from_vec [(1:ℚ)]) (Vector.from_vec [(1:ℚ), 2]) =
      .panicked := by
  decide

/-- Witness for C6's amended statement at a concrete 3-vs-1 mismatch. -/
theorem vector_add_sub_mismatch_witness :
    Vector.add (Vector.from_vec [(1:ℚ), 2, 3]) (Vector.from_vec [(4:ℚ)]) =
      .panicked
    ∧ Vector.sub (Vector.from_vec [(1:ℚ), 2, 3]) (Vector.from_vec [(4:ℚ)]) =
      .panicked :=
  vector_add_sub_mismatch (Vector.from_vec [(1:ℚ), 2, 3])
    (Vector.from_vec [(4:ℚ)]) (by decide)

/-- C1 — the Nigam–Jennings recurrence: for a well-formed input, valid
parameters and every index `i+1` below the input length, the successful
call's returned series satisfy exactly the three per-step equations of the
spec, with the eight coefficients given by the closed-form expressions
derived before the loop. -/
theorem nigam_jennings_recurrence (g : Vector ℝ) (delta_t omega h : ℝ)
    (i : Nat) (hwf : g.wf) (hdt : 0 < delta_t) (hom : 0 < omega)
    (hh0 : 0 ≤ h) (hh1 : h < 1) (hi : i + 1 < g.len) :
    nigam_jennings g delta_t omega h = .ok (njResponse g delta_t omega h)
    ∧ (njResponse g delta_t omega h).dispAt (i + 1) =
        a11 delta_t omega h * (njResponse g delta_t omega h).dispAt i +
        a12 delta_t omega h * (njResponse g delta_t omega h).velAt i +
        b11 delta_t omega h * g.data.getD i 0 +
        b12 delta_t omega h * g.data.getD (i + 1) 0
    ∧ (njResponse g delta_t omega h).velAt (i + 1) =
        a21 delta_t omega h * (njResponse g delta_t omega h).dispAt i +
        a22 delta_t omega h * (njResponse g delta_t omega h).velAt i +
        b21 delta_t omega h * g.data.getD i 0 +
        b22 delta_t omega h * g.data.getD (i + 1) 0
    ∧ (njResponse g delta_t omega h).accAt (i + 1) =
        2 * h * omega * (njResponse g delta_t omega h).velAt (i + 1) +
        omega * omega * (njResponse g delta_t omega h).dispAt (i + 1) := by
  have hdl : g.data.length = g.len := by rw [Vector.len, hwf]
  have hne : g.data ≠ [] := data_ne_nil_of_len g hwf (by omega)
  obtain ⟨g0, gtail, hg⟩ := List.exists_cons_of_ne_nil hne
  have htl : gtail.length + 1 = g.len := by rw [← hdl, hg, List.length_cons]
  have hS : njSteps g delta_t omega h =
      njRecur (a11 delta_t omega h) (a12 delta_t omega h)
        (a21 delta_t omega h) (a22 delta_t omega h) (b11 delta_t omega h)
        (b12 delta_t omega h) (b21 delta_t omega h) (b22 delta_t omega h)
        h omega gtail 0 0 g0 := by
    unfold njSteps
    rw [hg]
    rfl
  have hdispS : ∀ j : Nat, (njResponse g delta_t omega h).dispAt (j + 1) =
      ((njSteps g delta_t omega h).getD j ((0:ℝ), (0:ℝ), (0:ℝ))).1 := by
    intro j
    rw [SdofResponse.dispAt, njResponse_disp]
    show (0 :: (njSteps g delta_t omega h).map fun s => s.1).getD (j + 1) 0 =
      _
    rw [List.getD_cons_succ]
    exact getD_map_comp _ _ _ ((0:ℝ), (0:ℝ), (0:ℝ))
  have hvelS : ∀ j : Nat, (njResponse g delta_t omega h).velAt (j + 1) =
      ((njSteps g delta_t omega h).getD j ((0:ℝ), (0:ℝ), (0:ℝ))).2.1 := by
    intro j
    rw [SdofResponse.velAt, njResponse_vel]
    show (0 :: (njSteps g delta_t omega h).map fun s => s.2.1).getD (j + 1) 0 =
      _
    rw [List.getD_cons_succ]
    exact getD_map_comp _ _ _ ((0:ℝ), (0:ℝ), (0:ℝ))
  have haccS : ∀ j : Nat, (njResponse g delta_t omega h).accAt (j + 1) =
      ((njSteps g delta_t omega h).getD j ((0:ℝ), (0:ℝ), (0:ℝ))).2.2 := by
    intro j
    rw [SdofResponse.accAt, njResponse_acc]
    show (0 :: (njSteps g delta_t omega h).map fun s => s.2.2).getD (j + 1) 0 =
      _
    rw [List.getD_cons_succ]
    exact getD_map_comp _ _ _ ((0:ℝ), (0:ℝ), (0:ℝ))
  have hdisp0 : (njResponse g delta_t omega h).dispAt 0 = 0 := by
    rw [SdofResponse.dispAt, njResponse_disp]
    rfl
  have hvel0 : (njResponse g delta_t omega h).velAt 0 = 0 := by
    rw [SdofResponse.velAt, njResponse_vel]
    rfl
  have hg0 : g.data.getD 0 0 = g0 := by rw [hg, List.getD_cons_zero]
  have hgj : ∀ j : Nat, g.data.getD (j + 1) 0 = gtail.getD j 0 := by
    intro j
    rw [hg, List.getD_cons_succ]
  refine ⟨nigam_jennings_run_nonempty g delta_t omega h hne, ?_, ?_, ?_⟩
  · match i, hi with
    | 0, hi =>
      have hgt : gtail ≠ [] := by
        intro h0
        rw [h0] at htl
        simp at htl
        omega
      obtain ⟨g1, t2, ht⟩ := List.exists_cons_of_ne_nil hgt
      rw [hdispS 0, hS, ht, njRecur_getD_zero, hdisp0, hvel0, hg0, hgj 0, ht,
        List.getD_cons_zero]
    | j + 1, hi =>
      have hjb : j + 1 < gtail.length := by omega
      have key := njRecur_getD_succ (a11 delta_t omega h) (a12 delta_t omega h)
        (a21 delta_t omega h) (a22 delta_t omega h) (b11 delta_t omega h)
        (b12 delta_t omega h) (b21 delta_t omega h) (b22 delta_t omega h)
        h omega gtail 0 0 g0 j hjb
      rw [hdispS (j + 1), hS, key.1, hdispS j, hvelS j, hS, hgj j, hgj (j + 1)]
  · match i, hi with
    | 0, hi =>
      have hgt : gtail ≠ [] := by
        intro h0
        rw [h0] at htl
        simp at htl
        omega
      obtain ⟨g1, t2, ht⟩ := List.exists_cons_of_ne_nil hgt
      rw [hvelS 0, hS, ht, njRecur_getD_zero, hdisp0, hvel0, hg0, hgj 0, ht,
        List.getD_cons_zero]
    | j + 1, hi =>
      have hjb : j + 1 < gtail.length := by omega
      have key := njRecur_getD_succ (a11 delta_t omega h) (a12 delta_t omega h)
        (a21 delta_t omega h) (a22 delta_t omega h) (b11 delta_t omega h)
        (b12 delta_t omega h) (b21 delta_t omega h) (b22 delta_t omega h)
        h omega gtail 0 0 g0 j hjb
      rw [hvelS (j + 1), hS, key.2, hdispS j, hvelS j, hS, hgj j, hgj (j + 1)]
  · have hib : i < gtail.length := by omega
    have key := njRecur_acc (a11 delta_t omega h) (a12 delta_t omega h)
      (a21 delta_t omega h) (a22 delta_t omega h) (b11 delta_t omega h)
      (b12 delta_t omega h) (b21 delta_t omega h) (b22 delta_t omega h)
      h omega gtail 0 0 g0 i hib
    rw [haccS i, hS, key, hdispS i, hvelS i, hS]

/-- Witness for C1 at the length-2 input `[1, 2]`, `Δt = ω = 1`, `h = 0`,
step `i + 1 = 1`. -/
theorem nigam_jennings_recurrence_witness :
    nigam_jennings (Vector.from_vec [(1:ℝ), 2]) 1 1 0 =
      .ok (njResponse (Vector.from_vec [(1:ℝ), 2]) 1 1 0)
    ∧ (njResponse (Vector.from_vec [(1:ℝ), 2]) 1 1 0).dispAt 1 =
        a11 1 1 0 * (njResponse (Vector.from_vec [(1:ℝ), 2]) 1 1 0).dispAt 0 +
        a12 1 1 0 * (njResponse (Vector.from_vec [(1:ℝ), 2]) 1 1 0).velAt 0 +
        b11 1 1 0 * (Vector.from_vec [(1:ℝ), 2]).data.getD 0 0 +
        b12 1 1 0 * (Vector.from_vec [(1:ℝ), 2]).data.getD 1 0
    ∧ (njResponse (Vector.from_vec [(1:ℝ), 2]) 1 1 0).velAt 1 =
        a21 1 1 0 * (njResponse (Vector.from_vec [(1:ℝ), 2]) 1 1 0).dispAt 0 +
        a22 1 1 0 * (njResponse (Vector.from_vec [(1:ℝ), 2]) 1 1 0).velAt 0 +
        b21 1 1 0 * (Vector.from_vec [(1:ℝ), 2]).data.getD 0 0 +
        b22 1 1 0 * (Vector.from_vec [(1:ℝ), 2]).data.getD 1 0
    ∧ (njResponse (Vector.from_vec [(1:ℝ), 2]) 1 1 0).accAt 1 =
        2 * 0 * 1 * (njResponse (Vector.from_vec [(1:ℝ), 2]) 1 1 0).velAt 1 +
        1 * 1 * (njResponse (Vector.from_vec [(1:ℝ), 2]) 1 1 0).dispAt 1 :=
  nigam_jennings_recurrence (Vector.from_vec [(1:ℝ), 2]) 1 1 0 0
    rfl (by norm_num) (by norm_num) le_rfl (by norm_num) (by decide)

/-- C9 — element access and mutation fail (with Rust's index-out-of-bounds
panic) exactly when the index reaches the length, and succeed below it. -/
theorem vector_index_out_of_range {α : Type} [Zero α] (v : Vector α)
    (i : Nat) (x : α) (hwf : v.wf) :
    (v.len ≤ i → v.index i = .panicked ∧ v.index_set i x = .panicked)
    ∧ (i < v.len → v.index i = .ok (v.data.getD i 0)
        ∧ v.index_set i x = .ok ⟨v.size, v.data.set i x⟩) := by
  have hdl : v.data.length = v.len := by rw [Vector.len, hwf]
  constructor
  · intro hle
    have hnot : ¬ i < v.data.length := by rw [hdl]; omega
    unfold Vector.index Vector.index_set
    rw [dif_neg hnot, if_neg hnot]
    exact ⟨rfl, rfl⟩
  · intro hlt
    have h2 : i < v.data.length := by rw [hdl]; exact hlt
    unfold Vector.index Vector.index_set
    rw [dif_pos h2, if_pos h2]
    refine ⟨?_, rfl⟩
    rw [List.get_eq_getElem, List.getD_eq_getElem _ _ h2]

/-- Witness for C9: on the rational vector `[3, 4]`, index 5 panics for both
access and mutation, index 1 succeeds for both. -/
theorem vector_index_out_of_range_witness :
    (Vector.from_vec [(3:ℚ), 4]).index 5 = .panicked
    ∧ (Vector.from_vec [(3:ℚ), 4]).index_set 5 9 = .panicked
    ∧ (Vector.from_vec [(3:ℚ), 4]).index 1 =
        .ok ((Vector.from_vec [(3:ℚ), 4]).data.getD 1 0)
    ∧ (Vector.from_vec [(3:ℚ), 4]).index_set 1 9 =
        .ok ⟨(Vector.from_vec [(3:ℚ), 4]).size,
          (Vector.from_vec [(3:ℚ), 4]).data.set 1 9⟩ :=
  ⟨((vector_index_out_of_range (Vector.from_vec [(3:ℚ), 4]) 5 9 rfl).1
      (by decide)).1,
   ((vector_index_out_of_range (Vector.from_vec [(3:ℚ), 4]) 5 9 rfl).1
      (by decide)).2,
   ((vector_index_out_of_range (Vector.from_vec [(3:ℚ), 4]) 1 9 rfl).2
      (by decide)).1,
   ((vector_index_out_of_range (Vector.from_vec [(3:ℚ), 4]) 1 9 rfl).2
      (by decide)).2⟩

section BallArith

/-!  Exact rational ball arithmetic used to certify the numeric tolerance
claim.  A `Ball` encloses a real number: `B.mem x` says `x` lies within
`B.r` of the rational center `B.c`.  All operations are computable over `ℚ`
so the final size comparison can be settled by `decide`. -/

/-- Computable absolute value on `ℚ` (kernel-reducible, unlike the
lattice-derived `|·|`). -/
def qabs (q : ℚ) : ℚ := if q < 0 then -q else q

theorem cast_qabs (q : ℚ) : ((qabs q : ℚ) : ℝ) = |(q : ℝ)| := by
  unfold qabs
  split
  · next h =>
      have hq : (q : ℝ) < 0 := by exact_mod_cast h
      rw [abs_of_neg hq]
      push_cast
      ring
  · next h =>
      have hq : (0 : ℝ) ≤ (q : ℝ) := by
        have := not_lt.mp h
        exact_mod_cast this
      rw [abs_of_nonneg hq]

/-- A rational interval given by center and radius. -/
structure Ball where
  c : ℚ
  r : ℚ
  deriving DecidableEq

/-- `x` is enclosed by the ball. -/
def Ball.mem (B : Ball) (x : ℝ) : Prop := |x - (B.c : ℝ)| ≤ (B.r : ℝ)

/-- Exact rational value as a ball. -/
def Ball.ofRat (q : ℚ) : Ball := ⟨q, 0⟩

def Ball.add (A B : Ball) : Ball := ⟨A.c + B.c, A.r + B.r⟩

def Ball.sub (A B : Ball) : Ball := ⟨A.c - B.c, A.r + B.r⟩

def Ball.neg (A : Ball) : Ball := ⟨-A.c, A.r⟩

def Ball.mul (A B : Ball) : Ball :=
  ⟨A.c * B.c, qabs A.c * B.r + qabs B.c * A.r + A.r * B.r⟩

/-- Reciprocal of a ball strictly to the right of zero. -/
def Ball.inv (A : Ball) : Ball := ⟨A.c⁻¹, A.r / ((A.c - A.r) * A.c)⟩

/-- Enlarge the radius. -/
def Ball.widen (A : Ball) (e : ℚ) : Ball := ⟨A.c, A.r + e⟩

theorem Ball.radius_nonneg {A : Ball} {x : ℝ} (h : A.mem x) :
    (0 : ℝ) ≤ (A.r : ℝ) := le_trans (abs_nonneg _) h

theorem Ball.mem_ofRat (q : ℚ) : (Ball.ofRat q).mem (q : ℝ) := by
  simp [Ball.mem, Ball.ofRat]

theorem Ball.mem_add {A B : Ball} {x y : ℝ} (ha : A.mem x) (hb : B.mem y) :
    (A.add B).mem (x + y) := by
  unfold Ball.mem Ball.add at *
  push_cast
  calc |x + y - ((A.c : ℝ) + (B.c : ℝ))|
      = |(x - A.c) + (y - B.c)| := by ring_nf
    _ ≤ |x - (A.c : ℝ)| + |y - (B.c : ℝ)| := abs_add _ _
    _ ≤ (A.r : ℝ) + (B.r : ℝ) := add_le_add ha hb

theorem Ball.mem_neg {A : Ball} {x : ℝ} (ha : A.mem x) :
    (A.neg).mem (-x) := by
  unfold Ball.mem Ball.neg at *
  push_cast
  calc |-x - -(A.c : ℝ)| = |x - (A.c : ℝ)| := by rw [← abs_neg]; ring_nf
    _ ≤ (A.r : ℝ) := ha

theorem Ball.mem_sub {A B : Ball} {x y : ℝ} (ha : A.mem x) (hb : B.mem y) :
    (A.sub B).mem (x - y) := by
  have := Ball.mem_add ha (Ball.mem_neg hb)
  unfold Ball.mem Ball.add Ball.neg at this
  unfold Ball.mem Ball.sub
  push_cast at this ⊢
  calc |x - y - ((A.c : ℝ) - (B.c : ℝ))|
      = |x + -y - ((A.c : ℝ) + -(B.c : ℝ))| := by ring_nf
    _ ≤ (A.r : ℝ) + (B.r : ℝ) := this

theorem Ball.mem_mul {A B : Ball} {x y : ℝ} (ha : A.mem x) (hb : B.mem y) :
    (A.mul B).mem (x * y) := by
  have hra := Ball.radius_nonneg ha
  have hrb := Ball.radius_nonneg hb
  unfold Ball.mem Ball.mul at *
  push_cast [cast_qabs]
  calc |x * y - (A.c : ℝ) * (B.c : ℝ)|
      = |((A.c : ℝ) * (y - B.c) + (B.c : ℝ) * (x - A.c)) +
          (x - A.c) * (y - B.c)| := by ring_nf
    _ ≤ |(A.c : ℝ) * (y - B.c) + (B.c : ℝ) * (x - A.c)| +
          |(x - A.c) * (y - B.c)| := abs_add _ _
    _ ≤ (|(A.c : ℝ) * (y - B.c)| + |(B.c : ℝ) * (x - A.c)|) +
          |(x - A.c) * (y - B.c)| := by
        gcongr
        exact abs_add _ _
    _ = |(A.c : ℝ)| * |y - (B.c : ℝ)| + |(B.c : ℝ)| * |x - (A.c : ℝ)| +
          |x - (A.c : ℝ)| * |y - (B.c : ℝ)| := by
        rw [abs_mul, abs_mul, abs_mul]
    _ ≤ |(A.c : ℝ)| * (B.r : ℝ) + |(B.c : ℝ)| * (A.r : ℝ) +
          (A.r : ℝ) * (B.r : ℝ) := by gcongr <;> exact abs_nonneg _

theorem Ball.mem_inv {A : Ball} {x : ℝ} (ha : A.mem x)
    (hpos : 0 < A.c - A.r) : (A.inv).mem x⁻¹ := by
  have hra := Ball.radius_nonneg ha
  have hcrR : ((A.c - A.r : ℚ) : ℝ) ≤ x := by
    have := abs_le.mp ha
    push_cast
    linarith [this.1]
  have hposR : (0 : ℝ) < ((A.c - A.r : ℚ) : ℝ) := by exact_mod_cast hpos
  have hxpos : 0 < x := lt_of_lt_of_le hposR hcrR
  have hcpos : (0 : ℝ) < (A.c : ℝ) := by
    push_cast at hposR
    linarith
  unfold Ball.mem Ball.inv
  have hkey : x⁻¹ - ((A.c : ℝ))⁻¹ = ((A.c : ℝ) - x) / (x * A.c) := by
    field_simp
  push_cast
  rw [hkey, abs_div]
  have hnum : |(A.c : ℝ) - x| ≤ (A.r : ℝ) := by
    rw [abs_sub_comm]
    exact ha
  have hden : ((A.c - A.r : ℚ) : ℝ) * (A.c : ℝ) ≤ |x * (A.c : ℝ)| := by
    rw [abs_of_pos (mul_pos hxpos hcpos)]
    have : ((A.c - A.r : ℚ) : ℝ) * (A.c : ℝ) ≤ x * (A.c : ℝ) :=
      mul_le_mul_of_nonneg_right hcrR (le_of_lt hcpos)
    exact this
  have hdenpos : (0 : ℝ) < ((A.c - A.r : ℚ) : ℝ) * (A.c : ℝ) :=
    mul_pos hposR hcpos
  calc |(A.c : ℝ) - x| / |x * (A.c : ℝ)|
      ≤ (A.r : ℝ) / (((A.c - A.r : ℚ) : ℝ) * (A.c : ℝ)) := by
        apply div_le_div (le_trans hra (le_refl _)) hnum hdenpos hden
    _ = (A.r : ℝ) / (((A.c : ℝ) - (A.r : ℝ)) * (A.c : ℝ)) := by push_cast; ring_nf
  -- the center cast: (A.c⁻¹ : ℚ) cast equals (A.c : ℝ)⁻¹, handled by push_cast above

theorem Ball.abs_le_of_mem {A : Ball} {x : ℝ} (h : A.mem x) :
    |x| ≤ ((qabs A.c + A.r : ℚ) : ℝ) := by
  unfold Ball.mem at h
  push_cast [cast_qabs]
  calc |x| = |(x - (A.c : ℝ)) + (A.c : ℝ)| := by ring_nf
    _ ≤ |x - (A.c : ℝ)| + |(A.c : ℝ)| := abs_add _ _
    _ ≤ (A.r : ℝ) + |(A.c : ℝ)| := by gcongr
    _ = |(A.c : ℝ)| + (A.r : ℝ) := by ring

theorem Ball.mem_widen {A : Ball} {x y : ℝ} {e : ℚ} (h : A.mem x)
    (he : |y - x| ≤ (e : ℝ)) : (A.widen e).mem y := by
  unfold Ball.mem Ball.widen at *
  push_cast
  calc |y - (A.c : ℝ)| = |(y - x) + (x - (A.c : ℝ))| := by ring_nf
    _ ≤ |y - x| + |x - (A.c : ℝ)| := abs_add _ _
    _ ≤ (e : ℝ) + (A.r : ℝ) := add_le_add he h
    _ = (A.r : ℝ) + (e : ℝ) := by ring

end BallArith

section Enclosures

/-- Degree-8 Taylor polynomial of `exp` at a rational point. -/
def expTaylor (q : ℚ) : ℚ :=
  ∑ m ∈ Finset.range 9, q ^ m / (Nat.factorial m : ℚ)

/-- Enclosure of `exp` on a ball inside `[-1, 0]`: Taylor center at the
rational center, radius covering the Taylor remainder plus the Lipschitz
variation over the ball. -/
def expBall (B : Ball) : Ball :=
  ⟨expTaylor B.c, qabs B.c ^ 9 * (10 / ((362880 : ℚ) * 9)) + 2 * B.r⟩

theorem cast_expTaylor (q : ℚ) :
    ((expTaylor q : ℚ) : ℝ) =
      ∑ m ∈ Finset.range 9, (q : ℝ) ^ m / (Nat.factorial m : ℝ) := by
  unfold expTaylor
  push_cast
  rfl

theorem mem_expBall {B : Ball} {x : ℝ} (h : B.mem x)
    (hlb : -1 ≤ B.c - B.r) (hub : B.c + B.r ≤ 0) :
    (expBall B).mem (Real.exp x) := by
  have hr0 : (0 : ℝ) ≤ (B.r : ℝ) := Ball.radius_nonneg h
  have hr0' : (0 : ℚ) ≤ B.r := by exact_mod_cast hr0
  have hc0 : B.c ≤ 0 := by linarith
  have hcm1 : (-1 : ℚ) ≤ B.c := by linarith
  have hcabs : |(B.c : ℝ)| ≤ 1 := by
    rw [abs_le]
    have hl : (-1 : ℝ) ≤ (B.c : ℝ) := by exact_mod_cast hcm1
    have hr : (B.c : ℝ) ≤ 0 := by exact_mod_cast hc0
    constructor
    · exact hl
    · linarith
  have hx0 : x ≤ 0 := by
    have := (abs_le.mp h).1
    have hcub : (B.c : ℝ) + (B.r : ℝ) ≤ 0 := by exact_mod_cast hub
    have := (abs_le.mp h).2
    linarith
  have hr1 : B.r ≤ 1 / 2 := by linarith
  -- Taylor remainder at the center
  have htay := Real.exp_bound hcabs (n := 9) (by norm_num)
  -- Lipschitz step from the center to x
  have hu : |x - (B.c : ℝ)| ≤ 1 := by
    calc |x - (B.c : ℝ)| ≤ (B.r : ℝ) := h
      _ ≤ 1 := by exact_mod_cast le_trans hr1 (by norm_num)
  have hexpu : |Real.exp (x - B.c) - 1| ≤ 2 * |x - (B.c : ℝ)| := by
    have := Real.exp_bound hu (n := 1) (by norm_num)
    simp only [Finset.range_one, Finset.sum_singleton, pow_zero,
      Nat.factorial_zero, Nat.cast_one, div_one, pow_one] at this
    calc |Real.exp (x - B.c) - 1| ≤ |x - (B.c : ℝ)| * (2 / (1 * 1)) := by
          simpa using this
      _ = 2 * |x - (B.c : ℝ)| := by ring
  have hstep : |Real.exp x - Real.exp (B.c : ℝ)| ≤ 2 * (B.r : ℝ) := by
    have hfac : Real.exp x - Real.exp (B.c : ℝ) =
        Real.exp (B.c : ℝ) * (Real.exp (x - B.c) - 1) := by
      rw [mul_sub, ← Real.exp_add]
      ring_nf
    have hec1 : Real.exp (B.c : ℝ) ≤ 1 := by
      rw [show (1 : ℝ) = Real.exp 0 from (Real.exp_zero).symm]
      exact Real.exp_le_exp.mpr (by exact_mod_cast hc0)
    calc |Real.exp x - Real.exp (B.c : ℝ)|
        = Real.exp (B.c : ℝ) * |Real.exp (x - B.c) - 1| := by
          rw [hfac, abs_mul, abs_of_pos (Real.exp_pos _)]
      _ ≤ 1 * (2 * |x - (B.c : ℝ)|) :=
          mul_le_mul hec1 hexpu (abs_nonneg _) (by norm_num)
      _ = 2 * |x - (B.c : ℝ)| := by ring
      _ ≤ 2 * (B.r : ℝ) := by
          have hxc : |x - (B.c : ℝ)| ≤ (B.r : ℝ) := h
          linarith
  -- assemble
  unfold Ball.mem expBall
  push_cast [cast_qabs]
  rw [cast_expTaylor]
  calc |Real.exp x - ∑ m ∈ Finset.range 9, (B.c : ℝ) ^ m / (Nat.factorial m : ℝ)|
      = |(Real.exp x - Real.exp (B.c : ℝ)) +
          (Real.exp (B.c : ℝ) -
            ∑ m ∈ Finset.range 9, (B.c : ℝ) ^ m / (Nat.factorial m : ℝ))| := by
        congr 1
        ring
    _ ≤ |Real.exp x - Real.exp (B.c : ℝ)| +
          |Real.exp (B.c : ℝ) -
            ∑ m ∈ Finset.range 9, (B.c : ℝ) ^ m / (Nat.factorial m : ℝ)| :=
        abs_add _ _
    _ ≤ 2 * (B.r : ℝ) +
          |(B.c : ℝ)| ^ 9 * ((Nat.succ 9 : ℝ) / ((Nat.factorial 9 : ℝ) * (9:ℕ))) :=
        add_le_add hstep htay
    _ = |(B.c : ℝ)| ^ 9 * (10 / (362880 * 9)) + 2 * (B.r : ℝ) := by
        norm_num [Nat.factorial]
        ring_nf

/-- Cubic-Taylor enclosure of `sin` on a small ball (`|x| ≤ 1`). -/
def sinSmallBall (B : Ball) : Ball :=
  (B.sub (((B.mul B).mul B).mul (Ball.ofRat (1 / 6)))).widen
    ((qabs B.c + B.r) ^ 4 * (5 / 96))

/-- Quadratic-Taylor enclosure of `cos` on a small ball (`|x| ≤ 1`). -/
def cosSmallBall (B : Ball) : Ball :=
  ((Ball.ofRat 1).sub ((B.mul B).mul (Ball.ofRat (1 / 2)))).widen
    ((qabs B.c + B.r) ^ 4 * (5 / 96))

theorem mem_sinSmallBall {B : Ball} {x : ℝ} (h : B.mem x)
    (hub : qabs B.c + B.r ≤ 1) : (sinSmallBall B).mem (Real.sin x) := by
  have hx1 : |x| ≤ 1 := by
    calc |x| ≤ ((qabs B.c + B.r : ℚ) : ℝ) := Ball.abs_le_of_mem h
      _ ≤ 1 := by exact_mod_cast hub
  have hpoly : (B.sub (((B.mul B).mul B).mul (Ball.ofRat (1 / 6)))).mem
      (x - x * x * x * ((1 / 6 : ℚ) : ℝ)) :=
    Ball.mem_sub h (Ball.mem_mul (Ball.mem_mul (Ball.mem_mul h h) h)
      (Ball.mem_ofRat _))
  apply Ball.mem_widen hpoly
  have hbnd := Real.sin_bound hx1
  have habs4 : |x| ^ 4 ≤ ((qabs B.c + B.r : ℚ) : ℝ) ^ 4 := by
    apply pow_le_pow_left (abs_nonneg _) (Ball.abs_le_of_mem h)
  calc |Real.sin x - (x - x * x * x * ((1 / 6 : ℚ) : ℝ))|
      = |Real.sin x - (x - x ^ 3 / 6)| := by push_cast; ring_nf
    _ ≤ |x| ^ 4 * (5 / 96) := hbnd
    _ ≤ ((qabs B.c + B.r : ℚ) : ℝ) ^ 4 * (5 / 96) := by gcongr
    _ = (((qabs B.c + B.r) ^ 4 * (5 / 96) : ℚ) : ℝ) := by push_cast; ring

theorem mem_cosSmallBall {B : Ball} {x : ℝ} (h : B.mem x)
    (hub : qabs B.c + B.r ≤ 1) : (cosSmallBall B).mem (Real.cos x) := by
  have hx1 : |x| ≤ 1 := by
    calc |x| ≤ ((qabs B.c + B.r : ℚ) : ℝ) := Ball.abs_le_of_mem h
      _ ≤ 1 := by exact_mod_cast hub
  have hpoly : ((Ball.ofRat 1).sub ((B.mul B).mul (Ball.ofRat (1 / 2)))).mem
      (((1 : ℚ) : ℝ) - x * x * ((1 / 2 : ℚ) : ℝ)) :=
    Ball.mem_sub (Ball.mem_ofRat 1)
      (Ball.mem_mul (Ball.mem_mul h h) (Ball.mem_ofRat _))
  apply Ball.mem_widen hpoly
  have hbnd := Real.cos_bound hx1
  have habs4 : |x| ^ 4 ≤ ((qabs B.c + B.r : ℚ) : ℝ) ^ 4 := by
    apply pow_le_pow_left (abs_nonneg _) (Ball.abs_le_of_mem h)
  calc |Real.cos x - (((1 : ℚ) : ℝ) - x * x * ((1 / 2 : ℚ) : ℝ))|
      = |Real.cos x - (1 - x ^ 2 / 2)| := by push_cast; ring_nf
    _ ≤ |x| ^ 4 * (5 / 96) := hbnd
    _ ≤ ((qabs B.c + B.r : ℚ) : ℝ) ^ 4 * (5 / 96) := by gcongr
    _ = (((qabs B.c + B.r) ^ 4 * (5 / 96) : ℚ) : ℝ) := by push_cast; ring

/-- Double-angle step for sine. -/
def sinDouble (S C : Ball) : Ball := (Ball.ofRat 2).mul (S.mul C)

/-- Double-angle step for cosine. -/
def cosDouble (C : Ball) : Ball :=
  ((Ball.ofRat 2).mul (C.mul C)).sub (Ball.ofRat 1)

theorem mem_sinDouble {S C : Ball} {x : ℝ} (hs : S.mem (Real.sin x))
    (hc : C.mem (Real.cos x)) : (sinDouble S C).mem (Real.sin (2 * x)) := by
  have hmm := Ball.mem_mul (Ball.mem_ofRat 2) (Ball.mem_mul hs hc)
  rw [Real.sin_two_mul]
  have heq : (2:ℝ) * Real.sin x * Real.cos x =
      ((2 : ℚ) : ℝ) * (Real.sin x * Real.cos x) := by push_cast; ring
  rw [heq]
  exact hmm

theorem mem_cosDouble {C : Ball} {x : ℝ} (hc : C.mem (Real.cos x)) :
    (cosDouble C).mem (Real.cos (2 * x)) := by
  have := Ball.mem_sub (Ball.mem_mul (Ball.mem_ofRat 2) (Ball.mem_mul hc hc))
    (Ball.mem_ofRat 1)
  rw [Real.cos_two_mul]
  have heq : 2 * Real.cos x ^ 2 - 1 =
      ((2 : ℚ) : ℝ) * (Real.cos x * Real.cos x) - ((1 : ℚ) : ℝ) := by
    push_cast
    ring
  rw [heq]
  exact this

theorem Ball.mem_sqrt {B : Ball} (a : ℚ) (hr : 0 ≤ B.r)
    (h0 : 0 ≤ B.c - B.r)
    (h1 : (B.c - B.r) ^ 2 ≤ a) (h2 : a ≤ (B.c + B.r) ^ 2) :
    B.mem (Real.sqrt (a : ℝ)) := by
  have h0R : (0 : ℝ) ≤ ((B.c - B.r : ℚ) : ℝ) := by exact_mod_cast h0
  have hupnn : (0 : ℝ) ≤ ((B.c + B.r : ℚ) : ℝ) := by
    have : (0:ℚ) ≤ B.c + B.r := by linarith
    exact_mod_cast this
  have hlo : ((B.c - B.r : ℚ) : ℝ) ≤ Real.sqrt (a : ℝ) := by
    rw [show ((B.c - B.r : ℚ) : ℝ) =
        Real.sqrt (((B.c - B.r : ℚ) : ℝ) ^ 2) from
      (Real.sqrt_sq h0R).symm]
    apply Real.sqrt_le_sqrt
    exact_mod_cast h1
  have hhi : Real.sqrt (a : ℝ) ≤ ((B.c + B.r : ℚ) : ℝ) := by
    rw [show ((B.c + B.r : ℚ) : ℝ) =
        Real.sqrt (((B.c + B.r : ℚ) : ℝ) ^ 2) from
      (Real.sqrt_sq hupnn).symm]
    apply Real.sqrt_le_sqrt
    exact_mod_cast h2
  unfold Ball.mem
  rw [abs_le]
  constructor
  · push_cast at hlo ⊢
    linarith
  · push_cast at hhi ⊢
    linarith

/-- Ball around `π` from the 20-decimal-digit bounds. -/
def piBall : Ball := ⟨3.141592653589793238465, 5 / 10 ^ 21⟩

theorem mem_piBall : piBall.mem Real.pi := by
  have h1 := Real.pi_gt_d20
  have h2 := Real.pi_lt_d20
  unfold Ball.mem piBall
  rw [abs_le]
  have e1 : ((3.141592653589793238465 : ℚ) : ℝ) - ((5 / 10 ^ 21 : ℚ) : ℝ) =
      (3.14159265358979323846 : ℝ) := by norm_num
  have e2 : ((3.141592653589793238465 : ℚ) : ℝ) + ((5 / 10 ^ 21 : ℚ) : ℝ) =
      (3.14159265358979323847 : ℝ) := by norm_num
  constructor
  · linarith
  · linarith

end Enclosures

section StepLoadConstants

/-!  Certified enclosures for the constants of the C2 step-load scenario:
`Δt = 0.01`, `ω = 2π/0.1 = 20π`, `h = 0.05`, `α = 3`. -/

/-- The real `√(1 − h²) = √(399/400)` of the scenario. -/
noncomputable def sq399 : ℝ := Real.sqrt (399 / 400)

/-- The real `ω = 20π`. -/
noncomputable def omC : ℝ := 20 * Real.pi

/-- The real `ω′Δt = π·√(399/400)/5` of the scenario. -/
noncomputable def thetaC : ℝ := Real.pi * sq399 * (1 / 5)

/-- The real `e^{−hωΔt} = e^{−π/100}` of the scenario. -/
noncomputable def expC : ℝ := Real.exp (Real.pi * (-1 / 100))

noncomputable def sinC : ℝ := Real.sin thetaC

noncomputable def cosC : ℝ := Real.cos thetaC

def sqrtBall : Ball := ⟨0.998749217771908945789019116402, 1 / 10 ^ 28⟩

def expCBall : Ball := expBall (piBall.mul (Ball.ofRat (-1 / 100)))

def thetaBall : Ball := (piBall.mul sqrtBall).mul (Ball.ofRat (1 / 5))

def phiBall : Ball := thetaBall.mul (Ball.ofRat (1 / 32))

def sinB0 : Ball := sinSmallBall phiBall

def cosB0 : Ball := cosSmallBall phiBall

def sinB1 : Ball := sinDouble sinB0 cosB0

def cosB1 : Ball := cosDouble cosB0

def sinB2 : Ball := sinDouble sinB1 cosB1

def cosB2 : Ball := cosDouble cosB1

def sinB3 : Ball := sinDouble sinB2 cosB2

def cosB3 : Ball := cosDouble cosB2

def sinB4 : Ball := sinDouble sinB3 cosB3

def cosB4 : Ball := cosDouble cosB3

def sinThetaBall : Ball := sinDouble sinB4 cosB4

def cosThetaBall : Ball := cosDouble cosB4

theorem mem_sqrtBall : sqrtBall.mem sq399 := by
  have h := Ball.mem_sqrt (B := sqrtBall) (399 / 400)
    (by norm_num [sqrtBall]) (by norm_num [sqrtBall])
    (by norm_num [sqrtBall]) (by norm_num [sqrtBall])
  unfold sq399
  have e : (((399 : ℚ) / 400 : ℚ) : ℝ) = (399 : ℝ) / 400 := by norm_num
  rw [← e]
  exact h

theorem mem_expCBall : expCBall.mem expC := by
  have harg : (piBall.mul (Ball.ofRat (-1 / 100))).mem
      (Real.pi * ((-1 / 100 : ℚ) : ℝ)) :=
    Ball.mem_mul mem_piBall (Ball.mem_ofRat _)
  have h := mem_expBall harg
    (by norm_num [piBall, Ball.mul, Ball.ofRat, qabs])
    (by norm_num [piBall, Ball.mul, Ball.ofRat, qabs])
  unfold expC expCBall
  have e : Real.pi * ((-1 / 100 : ℚ) : ℝ) = Real.pi * (-1 / 100) := by
    norm_num
  rw [← e]
  exact h

theorem mem_thetaBall : thetaBall.mem thetaC := by
  have h : (thetaBall).mem (Real.pi * sq399 * ((1 / 5 : ℚ) : ℝ)) :=
    Ball.mem_mul (Ball.mem_mul mem_piBall mem_sqrtBall) (Ball.mem_ofRat _)
  unfold thetaC
  have e : Real.pi * sq399 * ((1 / 5 : ℚ) : ℝ) =
      Real.pi * sq399 * (1 / 5) := by norm_num
  rw [← e]
  exact h

theorem mem_phiBall : phiBall.mem (thetaC * ((1 / 32 : ℚ) : ℝ)) :=
  Ball.mem_mul mem_thetaBall (Ball.mem_ofRat _)

theorem mem_sin_cos_theta :
    sinThetaBall.mem sinC ∧ cosThetaBall.mem cosC := by
  have hb : qabs phiBall.c + phiBall.r ≤ 1 := by
    norm_num [phiBall, thetaBall, sqrtBall, piBall, Ball.mul, Ball.ofRat,
      qabs]
  have hs0 := mem_sinSmallBall mem_phiBall hb
  have hc0 := mem_cosSmallBall mem_phiBall hb
  have hs1 := mem_sinDouble hs0 hc0
  have hc1 := mem_cosDouble hc0
  have hs2 := mem_sinDouble hs1 hc1
  have hc2 := mem_cosDouble hc1
  have hs3 := mem_sinDouble hs2 hc2
  have hc3 := mem_cosDouble hc2
  have hs4 := mem_sinDouble hs3 hc3
  have hc4 := mem_cosDouble hc3
  have hs5 := mem_sinDouble hs4 hc4
  have hc5 := mem_cosDouble hc4
  have e : 2 * (2 * (2 * (2 * (2 * (thetaC * ((1 / 32 : ℚ) : ℝ)))))) =
      thetaC := by push_cast; ring
  rw [e] at hs5 hc5
  exact ⟨hs5, hc5⟩

theorem mem_sinThetaBall : sinThetaBall.mem sinC := mem_sin_cos_theta.1

theorem mem_cosThetaBall : cosThetaBall.mem cosC := mem_sin_cos_theta.2

theorem mem_omB : ((Ball.ofRat 20).mul piBall).mem omC := by
  have h := Ball.mem_mul (Ball.mem_ofRat 20) mem_piBall
  unfold omC
  have e : ((20 : ℚ) : ℝ) * Real.pi = 20 * Real.pi := by norm_num
  rw [← e]
  exact h

theorem Ball.mem_congr {B : Ball} {x y : ℝ} (h : B.mem x) (e : x = y) :
    B.mem y := e ▸ h

theorem homega20 : (2 * Real.pi / 0.1 : ℝ) = 20 * Real.pi := by
  rw [show (0.1 : ℝ) = 1 / 10 by norm_num]
  field_simp
  ring

theorem hsqrt399 : (1 : ℝ) - 0.05 * 0.05 = 399 / 400 := by norm_num

/-- Ball for `h = 0.05`. -/
def hRB : Ball := Ball.ofRat (1 / 20)

def sqInvB : Ball := sqrtBall.inv

def kBall : Ball := hRB.mul sqInvB

def omBall : Ball := (Ball.ofRat 20).mul piBall

def omdBall : Ball := sqrtBall.mul omBall

def omdInvB : Ball := omdBall.inv

def omInvB : Ball := omBall.inv

def om2InvB : Ball := (omBall.mul omBall).inv

def om3dtInvB : Ball :=
  (((omBall.mul omBall).mul omBall).mul (Ball.ofRat (1 / 100))).inv

def om2dtInvB : Ball := ((omBall.mul omBall).mul (Ball.ofRat (1 / 100))).inv

def t1Ball : Ball :=
  ((Ball.ofRat (-199 / 200)).mul om2dtInvB).add (hRB.mul omInvB)

def a11Ball : Ball := expCBall.mul ((kBall.mul sinThetaBall).add cosThetaBall)

def a12Ball : Ball := (expCBall.mul omdInvB).mul sinThetaBall

def a21Ball : Ball :=
  ((((Ball.ofRat (-1)).mul omBall).mul sqInvB).mul expCBall).mul sinThetaBall

def a22Ball : Ball := expCBall.mul (cosThetaBall.sub (kBall.mul sinThetaBall))

theorem sqrtBall_inv_pos : 0 < sqrtBall.c - sqrtBall.r := by
  norm_num [sqrtBall]

theorem mem_sqInvB : sqInvB.mem sq399⁻¹ :=
  Ball.mem_inv mem_sqrtBall sqrtBall_inv_pos

theorem omBall_pos : 0 < omBall.c - omBall.r := by
  norm_num [omBall, piBall, Ball.mul, Ball.ofRat, qabs]

theorem omdBall_pos : 0 < omdBall.c - omdBall.r := by
  norm_num [omdBall, omBall, sqrtBall, piBall, Ball.mul, Ball.ofRat, qabs]

theorem mem_omdBall : omdBall.mem (sq399 * omC) :=
  Ball.mem_mul mem_sqrtBall mem_omB

theorem mem_omdInvB : omdInvB.mem (sq399 * omC)⁻¹ :=
  Ball.mem_inv mem_omdBall omdBall_pos

theorem mem_omInvB : omInvB.mem omC⁻¹ :=
  Ball.mem_inv mem_omB omBall_pos

theorem om2Ball_pos : 0 < (omBall.mul omBall).c - (omBall.mul omBall).r := by
  norm_num [omBall, piBall, Ball.mul, Ball.ofRat, qabs]

theorem mem_om2InvB : om2InvB.mem (omC * omC)⁻¹ :=
  Ball.mem_inv (Ball.mem_mul mem_omB mem_omB) om2Ball_pos

theorem om3dtBall_pos :
    0 < (((omBall.mul omBall).mul omBall).mul (Ball.ofRat (1 / 100))).c -
      (((omBall.mul omBall).mul omBall).mul (Ball.ofRat (1 / 100))).r := by
  norm_num [omBall, piBall, Ball.mul, Ball.ofRat, qabs]

theorem mem_om3dtInvB :
    om3dtInvB.mem (omC * omC * omC * ((1 / 100 : ℚ) : ℝ))⁻¹ :=
  Ball.mem_inv
    (Ball.mem_mul (Ball.mem_mul (Ball.mem_mul mem_omB mem_omB) mem_omB)
      (Ball.mem_ofRat _)) om3dtBall_pos

theorem om2dtBall_pos :
    0 < ((omBall.mul omBall).mul (Ball.ofRat (1 / 100))).c -
      ((omBall.mul omBall).mul (Ball.ofRat (1 / 100))).r := by
  norm_num [omBall, piBall, Ball.mul, Ball.ofRat, qabs]

theorem mem_om2dtInvB :
    om2dtInvB.mem (omC * omC * ((1 / 100 : ℚ) : ℝ))⁻¹ :=
  Ball.mem_inv
    (Ball.mem_mul (Ball.mem_mul mem_omB mem_omB) (Ball.mem_ofRat _))
    om2dtBall_pos

theorem mem_kBall : kBall.mem (((1 / 20 : ℚ) : ℝ) * sq399⁻¹) :=
  Ball.mem_mul (Ball.mem_ofRat _) mem_sqInvB

theorem mem_t1Ball : t1Ball.mem
    (((-199 / 200 : ℚ) : ℝ) * (omC * omC * ((1 / 100 : ℚ) : ℝ))⁻¹ +
      ((1 / 20 : ℚ) : ℝ) * omC⁻¹) :=
  Ball.mem_add (Ball.mem_mul (Ball.mem_ofRat _) mem_om2dtInvB)
    (Ball.mem_mul (Ball.mem_ofRat _) mem_omInvB)

theorem a11_val : a11 0.01 (2 * Real.pi / 0.1) 0.05 =
    expC * (((1 / 20 : ℚ) : ℝ) * sq399⁻¹ * sinC + cosC) := by
  simp only [a11, omega_dash, expC, sinC, cosC, thetaC, sq399, omC]
  rw [hsqrt399, homega20]
  rw [show (-(0.05:ℝ)) * (20 * Real.pi) * 0.01 = Real.pi * (-1 / 100) by ring]
  rw [show Real.sqrt ((399:ℝ) / 400) * (20 * Real.pi) * 0.01 =
    Real.pi * Real.sqrt ((399:ℝ) / 400) * (1 / 5) by ring]
  push_cast
  ring

theorem mem_a11Ball : a11Ball.mem (a11 0.01 (2 * Real.pi / 0.1) 0.05) := by
  rw [a11_val]
  exact Ball.mem_mul mem_expCBall
    (Ball.mem_add (Ball.mem_mul mem_kBall mem_sinThetaBall) mem_cosThetaBall)

theorem a12_val : a12 0.01 (2 * Real.pi / 0.1) 0.05 =
    expC * (sq399 * omC)⁻¹ * sinC := by
  simp only [a12, omega_dash, expC, sinC, cosC, thetaC, sq399, omC]
  rw [hsqrt399, homega20]
  rw [show (-(0.05:ℝ)) * (20 * Real.pi) * 0.01 = Real.pi * (-1 / 100) by ring]
  rw [show Real.sqrt ((399:ℝ) / 400) * (20 * Real.pi) * 0.01 =
    Real.pi * Real.sqrt ((399:ℝ) / 400) * (1 / 5) by ring]
  ring

theorem mem_a12Ball : a12Ball.mem (a12 0.01 (2 * Real.pi / 0.1) 0.05) := by
  rw [a12_val]
  exact Ball.mem_mul (Ball.mem_mul mem_expCBall mem_omdInvB) mem_sinThetaBall

theorem a21_val : a21 0.01 (2 * Real.pi / 0.1) 0.05 =
    ((-1 : ℚ) : ℝ) * omC * sq399⁻¹ * expC * sinC := by
  simp only [a21, omega_dash, expC, sinC, cosC, thetaC, sq399, omC]
  rw [hsqrt399, homega20]
  rw [show (-(0.05:ℝ)) * (20 * Real.pi) * 0.01 = Real.pi * (-1 / 100) by ring]
  rw [show Real.sqrt ((399:ℝ) / 400) * (20 * Real.pi) * 0.01 =
    Real.pi * Real.sqrt ((399:ℝ) / 400) * (1 / 5) by ring]
  push_cast
  ring

theorem mem_a21Ball : a21Ball.mem (a21 0.01 (2 * Real.pi / 0.1) 0.05) := by
  rw [a21_val]
  exact Ball.mem_mul
    (Ball.mem_mul
      (Ball.mem_mul (Ball.mem_mul (Ball.mem_ofRat _) mem_omB) mem_sqInvB)
      mem_expCBall) mem_sinThetaBall

theorem a22_val : a22 0.01 (2 * Real.pi / 0.1) 0.05 =
    expC * (cosC - ((1 / 20 : ℚ) : ℝ) * sq399⁻¹ * sinC) := by
  simp only [a22, omega_dash, expC, sinC, cosC, thetaC, sq399, omC]
  rw [hsqrt399, homega20]
  rw [show (-(0.05:ℝ)) * (20 * Real.pi) * 0.01 = Real.pi * (-1 / 100) by ring]
  rw [show Real.sqrt ((399:ℝ) / 400) * (20 * Real.pi) * 0.01 =
    Real.pi * Real.sqrt ((399:ℝ) / 400) * (1 / 5) by ring]
  push_cast
  ring

theorem mem_a22Ball : a22Ball.mem (a22 0.01 (2 * Real.pi / 0.1) 0.05) := by
  rw [a22_val]
  exact Ball.mem_mul mem_expCBall
    (Ball.mem_sub mem_cosThetaBall
      (Ball.mem_mul mem_kBall mem_sinThetaBall))

def b11Ball : Ball :=
  (expCBall.mul (((t1Ball.mul sinThetaBall).mul omdInvB).add
    (((Ball.ofRat (1 / 10)).mul om3dtInvB).add
      (om2InvB.mul cosThetaBall)))).sub
  ((Ball.ofRat (1 / 10)).mul om3dtInvB)

def b12Ball : Ball :=
  ((((Ball.ofRat (-1)).mul expCBall).mul
    (((((Ball.ofRat (-199 / 200)).mul om2dtInvB).mul sinThetaBall).mul
        omdInvB).add
      (((Ball.ofRat (1 / 10)).mul om3dtInvB).mul cosThetaBall))).sub
    om2InvB).add
  ((Ball.ofRat (1 / 10)).mul om3dtInvB)

def csBall : Ball := cosThetaBall.sub (kBall.mul sinThetaBall)

def odBall : Ball :=
  (omdBall.mul sinThetaBall).add ((hRB.mul omBall).mul cosThetaBall)

def b21Ball : Ball :=
  (expCBall.mul ((t1Ball.mul csBall).sub
    ((((Ball.ofRat (1 / 10)).mul om3dtInvB).add om2InvB).mul odBall))).add
  om2dtInvB

def b22Ball : Ball :=
  (((Ball.ofRat (-1)).mul expCBall).mul
    ((((Ball.ofRat (-199 / 200)).mul om2dtInvB).mul csBall).sub
      (((Ball.ofRat (1 / 10)).mul om3dtInvB).mul odBall))).sub
  om2dtInvB

theorem mem_csBall :
    csBall.mem (cosC - ((1 / 20 : ℚ) : ℝ) * sq399⁻¹ * sinC) :=
  Ball.mem_sub mem_cosThetaBall (Ball.mem_mul mem_kBall mem_sinThetaBall)

theorem mem_odBall :
    odBall.mem (sq399 * omC * sinC + ((1 / 20 : ℚ) : ℝ) * omC * cosC) :=
  Ball.mem_add (Ball.mem_mul mem_omdBall mem_sinThetaBall)
    (Ball.mem_mul (Ball.mem_mul (Ball.mem_ofRat _) mem_omB) mem_cosThetaBall)

theorem b11_val : b11 0.01 (2 * Real.pi / 0.1) 0.05 =
    expC * ((((-199 / 200 : ℚ) : ℝ) * (omC * omC * ((1 / 100 : ℚ) : ℝ))⁻¹ +
        ((1 / 20 : ℚ) : ℝ) * omC⁻¹) * sinC * (sq399 * omC)⁻¹ +
      (((1 / 10 : ℚ) : ℝ) * (omC * omC * omC * ((1 / 100 : ℚ) : ℝ))⁻¹ +
        (omC * omC)⁻¹ * cosC)) -
    ((1 / 10 : ℚ) : ℝ) * (omC * omC * omC * ((1 / 100 : ℚ) : ℝ))⁻¹ := by
  simp only [b11, omega_dash, expC, sinC, cosC, thetaC, sq399, omC]
  rw [hsqrt399, homega20]
  rw [show (-(0.05:ℝ)) * (20 * Real.pi) * 0.01 = Real.pi * (-1 / 100) by ring]
  rw [show Real.sqrt ((399:ℝ) / 400) * (20 * Real.pi) * 0.01 =
    Real.pi * Real.sqrt ((399:ℝ) / 400) * (1 / 5) by ring]
  push_cast
  ring

theorem mem_b11Ball : b11Ball.mem (b11 0.01 (2 * Real.pi / 0.1) 0.05) := by
  rw [b11_val]
  exact Ball.mem_sub
    (Ball.mem_mul mem_expCBall
      (Ball.mem_add
        (Ball.mem_mul (Ball.mem_mul mem_t1Ball mem_sinThetaBall) mem_omdInvB)
        (Ball.mem_add (Ball.mem_mul (Ball.mem_ofRat _) mem_om3dtInvB)
          (Ball.mem_mul mem_om2InvB mem_cosThetaBall))))
    (Ball.mem_mul (Ball.mem_ofRat _) mem_om3dtInvB)

theorem b12_val : b12 0.01 (2 * Real.pi / 0.1) 0.05 =
    ((-1 : ℚ) : ℝ) * expC *
        (((-199 / 200 : ℚ) : ℝ) * (omC * omC * ((1 / 100 : ℚ) : ℝ))⁻¹ *
            sinC * (sq399 * omC)⁻¹ +
          ((1 / 10 : ℚ) : ℝ) * (omC * omC * omC * ((1 / 100 : ℚ) : ℝ))⁻¹ *
            cosC) -
      (omC * omC)⁻¹ +
    ((1 / 10 : ℚ) : ℝ) * (omC * omC * omC * ((1 / 100 : ℚ) : ℝ))⁻¹ := by
  simp only [b12, omega_dash, expC, sinC, cosC, thetaC, sq399, omC]
  rw [hsqrt399, homega20]
  rw [show (-(0.05:ℝ)) * (20 * Real.pi) * 0.01 = Real.pi * (-1 / 100) by ring]
  rw [show Real.sqrt ((399:ℝ) / 400) * (20 * Real.pi) * 0.01 =
    Real.pi * Real.sqrt ((399:ℝ) / 400) * (1 / 5) by ring]
  push_cast
  ring

theorem mem_b12Ball : b12Ball.mem (b12 0.01 (2 * Real.pi / 0.1) 0.05) := by
  rw [b12_val]
  exact Ball.mem_add
    (Ball.mem_sub
      (Ball.mem_mul (Ball.mem_mul (Ball.mem_ofRat _) mem_expCBall)
        (Ball.mem_add
          (Ball.mem_mul
            (Ball.mem_mul (Ball.mem_mul (Ball.mem_ofRat _) mem_om2dtInvB)
              mem_sinThetaBall) mem_omdInvB)
          (Ball.mem_mul (Ball.mem_mul (Ball.mem_ofRat _) mem_om3dtInvB)
            mem_cosThetaBall)))
      mem_om2InvB)
    (Ball.mem_mul (Ball.mem_ofRat _) mem_om3dtInvB)

theorem b21_val : b21 0.01 (2 * Real.pi / 0.1) 0.05 =
    expC * ((((-199 / 200 : ℚ) : ℝ) * (omC * omC * ((1 / 100 : ℚ) : ℝ))⁻¹ +
        ((1 / 20 : ℚ) : ℝ) * omC⁻¹) *
          (cosC - ((1 / 20 : ℚ) : ℝ) * sq399⁻¹ * sinC) -
      (((1 / 10 : ℚ) : ℝ) * (omC * omC * omC * ((1 / 100 : ℚ) : ℝ))⁻¹ +
          (omC * omC)⁻¹) *
        (sq399 * omC * sinC + ((1 / 20 : ℚ) : ℝ) * omC * cosC)) +
    (omC * omC * ((1 / 100 : ℚ) : ℝ))⁻¹ := by
  simp only [b21, omega_dash, expC, sinC, cosC, thetaC, sq399, omC]
  rw [hsqrt399, homega20]
  rw [show (-(0.05:ℝ)) * (20 * Real.pi) * 0.01 = Real.pi * (-1 / 100) by ring]
  rw [show Real.sqrt ((399:ℝ) / 400) * (20 * Real.pi) * 0.01 =
    Real.pi * Real.sqrt ((399:ℝ) / 400) * (1 / 5) by ring]
  push_cast
  ring

theorem mem_b21Ball : b21Ball.mem (b21 0.01 (2 * Real.pi / 0.1) 0.05) := by
  rw [b21_val]
  exact Ball.mem_add
    (Ball.mem_mul mem_expCBall
      (Ball.mem_sub (Ball.mem_mul mem_t1Ball mem_csBall)
        (Ball.mem_mul
          (Ball.mem_add (Ball.mem_mul (Ball.mem_ofRat _) mem_om3dtInvB)
            mem_om2InvB) mem_odBall)))
    mem_om2dtInvB

theorem b22_val : b22 0.01 (2 * Real.pi / 0.1) 0.05 =
    ((-1 : ℚ) : ℝ) * expC *
        (((-199 / 200 : ℚ) : ℝ) * (omC * omC * ((1 / 100 : ℚ) : ℝ))⁻¹ *
            (cosC - ((1 / 20 : ℚ) : ℝ) * sq399⁻¹ * sinC) -
          ((1 / 10 : ℚ) : ℝ) * (omC * omC * omC * ((1 / 100 : ℚ) : ℝ))⁻¹ *
            (sq399 * omC * sinC + ((1 / 20 : ℚ) : ℝ) * omC * cosC)) -
      (omC * omC * ((1 / 100 : ℚ) : ℝ))⁻¹ := by
  simp only [b22, omega_dash, expC, sinC, cosC, thetaC, sq399, omC]
  rw [hsqrt399, homega20]
  rw [show (-(0.05:ℝ)) * (20 * Real.pi) * 0.01 = Real.pi * (-1 / 100) by ring]
  rw [show Real.sqrt ((399:ℝ) / 400) * (20 * Real.pi) * 0.01 =
    Real.pi * Real.sqrt ((399:ℝ) / 400) * (1 / 5) by ring]
  push_cast
  ring

theorem mem_b22Ball : b22Ball.mem (b22 0.01 (2 * Real.pi / 0.1) 0.05) := by
  rw [b22_val]
  exact Ball.mem_sub
    (Ball.mem_mul (Ball.mem_mul (Ball.mem_ofRat _) mem_expCBall)
      (Ball.mem_sub
        (Ball.mem_mul (Ball.mem_mul (Ball.mem_ofRat _) mem_om2dtInvB)
          mem_csBall)
        (Ball.mem_mul (Ball.mem_mul (Ball.mem_ofRat _) mem_om3dtInvB)
          mem_odBall)))
    mem_om2dtInvB

end StepLoadConstants

section ClosedForm

/-!  Exact closed-form solution of the engine's recurrence under constant
ground acceleration `g ≡ −α`, rest initial state.  The transition matrix of
the recurrence is `E·(c·I + s·J)` with `J² = −I`, so the solution is the
affine fixed point plus an exponentially decaying rotation. -/

/-- The state `(y_i, ẏ_i)` produced by the engine's loop body under constant
ground acceleration `−α` from rest. -/
noncomputable def njConstState (Δ ω h α : ℝ) : ℕ → ℝ × ℝ
  | 0 => (0, 0)
  | i + 1 =>
    (a11 Δ ω h * (njConstState Δ ω h α i).1 +
        a12 Δ ω h * (njConstState Δ ω h α i).2 +
        b11 Δ ω h * (-α) + b12 Δ ω h * (-α),
      a21 Δ ω h * (njConstState Δ ω h α i).1 +
        a22 Δ ω h * (njConstState Δ ω h α i).2 +
        b21 Δ ω h * (-α) + b22 Δ ω h * (-α))

noncomputable def Bsum1 (Δ ω h α : ℝ) : ℝ := (b11 Δ ω h + b12 Δ ω h) * (-α)

noncomputable def Bsum2 (Δ ω h α : ℝ) : ℝ := (b21 Δ ω h + b22 Δ ω h) * (-α)

/-- Determinant of `I − M` for the transition matrix `M`. -/
noncomputable def detM (Δ ω h : ℝ) : ℝ :=
  (1 - a11 Δ ω h) * (1 - a22 Δ ω h) - a12 Δ ω h * a21 Δ ω h

/-- First component of the affine fixed point. -/
noncomputable def yst1 (Δ ω h α : ℝ) : ℝ :=
  ((1 - a22 Δ ω h) * Bsum1 Δ ω h α + a12 Δ ω h * Bsum2 Δ ω h α) / detM Δ ω h

/-- Second component of the affine fixed point. -/
noncomputable def yst2 (Δ ω h α : ℝ) : ℝ :=
  (a21 Δ ω h * Bsum1 Δ ω h α + (1 - a11 Δ ω h) * Bsum2 Δ ω h α) / detM Δ ω h

noncomputable def kdamp (h : ℝ) : ℝ := h / Real.sqrt (1 - h * h)

noncomputable def w1c (ω h : ℝ) : ℝ := 1 / omega_dash ω h

noncomputable def w2c (ω h : ℝ) : ℝ := ω / Real.sqrt (1 - h * h)

noncomputable def Pc (Δ ω h α : ℝ) : ℝ := -yst1 Δ ω h α

noncomputable def Rc (Δ ω h α : ℝ) : ℝ := -yst2 Δ ω h α

noncomputable def Qc (Δ ω h α : ℝ) : ℝ :=
  kdamp h * Pc Δ ω h α + w1c ω h * Rc Δ ω h α

noncomputable def Tc (Δ ω h α : ℝ) : ℝ :=
  -w2c ω h * Pc Δ ω h α - kdamp h * Rc Δ ω h α

theorem fixed_point_solve (A11 A12 A21 A22 B1 B2 : ℝ)
    (hdet : (1 - A11) * (1 - A22) - A12 * A21 ≠ 0) :
    A11 * (((1 - A22) * B1 + A12 * B2) /
        ((1 - A11) * (1 - A22) - A12 * A21)) +
      A12 * ((A21 * B1 + (1 - A11) * B2) /
        ((1 - A11) * (1 - A22) - A12 * A21)) + B1 =
      ((1 - A22) * B1 + A12 * B2) / ((1 - A11) * (1 - A22) - A12 * A21)
    ∧ A21 * (((1 - A22) * B1 + A12 * B2) /
        ((1 - A11) * (1 - A22) - A12 * A21)) +
      A22 * ((A21 * B1 + (1 - A11) * B2) /
        ((1 - A11) * (1 - A22) - A12 * A21)) + B2 =
      (A21 * B1 + (1 - A11) * B2) / ((1 - A11) * (1 - A22) - A12 * A21) := by
  constructor
  · field_simp
    ring
  · field_simp
    ring

theorem rot_step (E c s k w1 w2 P R : ℝ) (hJ : k * k - w1 * w2 = -1) :
    E * (c + k * s) * P + E * (w1 * s) * R =
      E * (P * c + (k * P + w1 * R) * s)
    ∧ E * (c + k * s) * (k * P + w1 * R) +
        E * (w1 * s) * (-w2 * P - k * R) =
      E * ((k * P + w1 * R) * c - P * s)
    ∧ E * (-(w2 * s)) * P + E * (c - k * s) * R =
      E * (R * c + (-w2 * P - k * R) * s)
    ∧ E * (-(w2 * s)) * (k * P + w1 * R) +
        E * (c - k * s) * (-w2 * P - k * R) =
      E * ((-w2 * P - k * R) * c - R * s) :=
  ⟨by ring, by linear_combination E * s * P * hJ, by ring,
    by linear_combination E * s * R * hJ⟩

theorem hJ_concrete (ω h : ℝ) (hh0 : 0 ≤ h) (hh1 : h < 1) (hω : 0 < ω) :
    kdamp h * kdamp h - w1c ω h * w2c ω h = -1 := by
  have hpos : 0 < 1 - h * h := by nlinarith
  have hs2 : Real.sqrt (1 - h * h) ^ 2 = 1 - h * h :=
    Real.sq_sqrt (le_of_lt hpos)
  have hsne : Real.sqrt (1 - h * h) ≠ 0 :=
    ne_of_gt (Real.sqrt_pos.mpr hpos)
  unfold kdamp w1c w2c omega_dash
  field_simp
  linear_combination ω * hs2

theorem a11_rot (Δ ω h : ℝ) : a11 Δ ω h =
    Real.exp (-h * ω * Δ) * (Real.cos (omega_dash ω h * Δ) +
      kdamp h * Real.sin (omega_dash ω h * Δ)) := by
  simp only [a11, kdamp]
  try ring

theorem a12_rot (Δ ω h : ℝ) : a12 Δ ω h =
    Real.exp (-h * ω * Δ) * (w1c ω h * Real.sin (omega_dash ω h * Δ)) := by
  simp only [a12, w1c]
  try ring

theorem a21_rot (Δ ω h : ℝ) : a21 Δ ω h =
    Real.exp (-h * ω * Δ) * (-(w2c ω h * Real.sin (omega_dash ω h * Δ))) := by
  simp only [a21, w2c]
  try ring

theorem a22_rot (Δ ω h : ℝ) : a22 Δ ω h =
    Real.exp (-h * ω * Δ) * (Real.cos (omega_dash ω h * Δ) -
      kdamp h * Real.sin (omega_dash ω h * Δ)) := by
  simp only [a22, kdamp]
  try ring

theorem angle_step (θ : ℝ) (i : ℕ) :
    θ * ((i + 1 : ℕ) : ℝ) = θ * (i : ℝ) + θ := by
  push_cast
  ring

/-- The exact solution of the constant-load recurrence: affine fixed point
plus decaying rotation, with amplitudes fixed by the rest initial state. -/
theorem njConstState_closed (Δ ω h α : ℝ) (hh0 : 0 ≤ h) (hh1 : h < 1)
    (hω : 0 < ω) (hdet : detM Δ ω h ≠ 0) (i : ℕ) :
    (njConstState Δ ω h α i).1 = yst1 Δ ω h α +
        Real.exp (-h * ω * Δ) ^ i *
          (Pc Δ ω h α * Real.cos (omega_dash ω h * Δ * i) +
            Qc Δ ω h α * Real.sin (omega_dash ω h * Δ * i))
    ∧ (njConstState Δ ω h α i).2 = yst2 Δ ω h α +
        Real.exp (-h * ω * Δ) ^ i *
          (Rc Δ ω h α * Real.cos (omega_dash ω h * Δ * i) +
            Tc Δ ω h α * Real.sin (omega_dash ω h * Δ * i)) := by
  have hJ := hJ_concrete ω h hh0 hh1 hω
  have hfix := fixed_point_solve (a11 Δ ω h) (a12 Δ ω h) (a21 Δ ω h)
    (a22 Δ ω h) (Bsum1 Δ ω h α) (Bsum2 Δ ω h α) (by
      have : detM Δ ω h = (1 - a11 Δ ω h) * (1 - a22 Δ ω h) -
          a12 Δ ω h * a21 Δ ω h := rfl
      rw [← this]
      exact hdet)
  have hy1 : a11 Δ ω h * yst1 Δ ω h α + a12 Δ ω h * yst2 Δ ω h α +
      Bsum1 Δ ω h α = yst1 Δ ω h α := by
    simpa only [yst1, yst2, detM, Bsum1, Bsum2] using hfix.1
  have hy2 : a21 Δ ω h * yst1 Δ ω h α + a22 Δ ω h * yst2 Δ ω h α +
      Bsum2 Δ ω h α = yst2 Δ ω h α := by
    simpa only [yst1, yst2, detM, Bsum1, Bsum2] using hfix.2
  have hrot := rot_step (Real.exp (-h * ω * Δ))
    (Real.cos (omega_dash ω h * Δ)) (Real.sin (omega_dash ω h * Δ))
    (kdamp h) (w1c ω h) (w2c ω h) (Pc Δ ω h α) (Rc Δ ω h α) hJ
  have hrot1 : a11 Δ ω h * Pc Δ ω h α + a12 Δ ω h * Rc Δ ω h α =
      Real.exp (-h * ω * Δ) * (Pc Δ ω h α * Real.cos (omega_dash ω h * Δ) +
        Qc Δ ω h α * Real.sin (omega_dash ω h * Δ)) := by
    rw [a11_rot, a12_rot]
    simpa only [Qc] using hrot.1
  have hrot2 : a11 Δ ω h * Qc Δ ω h α + a12 Δ ω h * Tc Δ ω h α =
      Real.exp (-h * ω * Δ) * (Qc Δ ω h α * Real.cos (omega_dash ω h * Δ) -
        Pc Δ ω h α * Real.sin (omega_dash ω h * Δ)) := by
    rw [a11_rot, a12_rot]
    simpa only [Qc, Tc] using hrot.2.1
  have hrot3 : a21 Δ ω h * Pc Δ ω h α + a22 Δ ω h * Rc Δ ω h α =
      Real.exp (-h * ω * Δ) * (Rc Δ ω h α * Real.cos (omega_dash ω h * Δ) +
        Tc Δ ω h α * Real.sin (omega_dash ω h * Δ)) := by
    rw [a21_rot, a22_rot]
    simpa only [Qc, Tc] using hrot.2.2.1
  have hrot4 : a21 Δ ω h * Qc Δ ω h α + a22 Δ ω h * Tc Δ ω h α =
      Real.exp (-h * ω * Δ) * (Tc Δ ω h α * Real.cos (omega_dash ω h * Δ) -
        Rc Δ ω h α * Real.sin (omega_dash ω h * Δ)) := by
    rw [a21_rot, a22_rot]
    simpa only [Qc, Tc] using hrot.2.2.2
  induction i with
  | zero =>
    constructor
    · show (0 : ℝ) = _
      simp only [Nat.cast_zero, mul_zero, Real.cos_zero, Real.sin_zero,
        pow_zero, Pc]
      ring
    · show (0 : ℝ) = _
      simp only [Nat.cast_zero, mul_zero, Real.cos_zero, Real.sin_zero,
        pow_zero, Rc]
      ring
  | succ i ih =>
    obtain ⟨ih1, ih2⟩ := ih
    have hcos := angle_step (omega_dash ω h * Δ) i
    constructor
    · show a11 Δ ω h * (njConstState Δ ω h α i).1 +
          a12 Δ ω h * (njConstState Δ ω h α i).2 +
          b11 Δ ω h * (-α) + b12 Δ ω h * (-α) = _
      rw [ih1, ih2, hcos, Real.cos_add, Real.sin_add, pow_succ]
      have hb : b11 Δ ω h * (-α) + b12 Δ ω h * (-α) = Bsum1 Δ ω h α := by
        simp only [Bsum1]
        ring
      linear_combination hy1 +
        (Real.exp (-h * ω * Δ) ^ i *
          Real.cos (omega_dash ω h * Δ * i)) * hrot1 +
        (Real.exp (-h * ω * Δ) ^ i *
          Real.sin (omega_dash ω h * Δ * i)) * hrot2 + hb
    · show a21 Δ ω h * (njConstState Δ ω h α i).1 +
          a22 Δ ω h * (njConstState Δ ω h α i).2 +
          b21 Δ ω h * (-α) + b22 Δ ω h * (-α) = _
      rw [ih1, ih2, hcos, Real.cos_add, Real.sin_add, pow_succ]
      have hb : b21 Δ ω h * (-α) + b22 Δ ω h * (-α) = Bsum2 Δ ω h α := by
        simp only [Bsum2]
        ring
      linear_combination hy2 +
        (Real.exp (-h * ω * Δ) ^ i *
          Real.cos (omega_dash ω h * Δ * i)) * hrot3 +
        (Real.exp (-h * ω * Δ) ^ i *
          Real.sin (omega_dash ω h * Δ * i)) * hrot4 + hb

end ClosedForm

/-- The loop on a constant sample list computes exactly the states of
`njConstState`, shifted by the start index. -/
theorem njRecur_const (Δ ω h α : ℝ) : ∀ (m i0 j : ℕ), j < m →
    ((njRecur (a11 Δ ω h) (a12 Δ ω h) (a21 Δ ω h) (a22 Δ ω h)
        (b11 Δ ω h) (b12 Δ ω h) (b21 Δ ω h) (b22 Δ ω h) h ω
        (List.replicate m (-α))
        (njConstState Δ ω h α i0).1 (njConstState Δ ω h α i0).2
        (-α)).getD j ((0:ℝ), 0, 0)).1 =
      (njConstState Δ ω h α (i0 + j + 1)).1
    ∧ ((njRecur (a11 Δ ω h) (a12 Δ ω h) (a21 Δ ω h) (a22 Δ ω h)
        (b11 Δ ω h) (b12 Δ ω h) (b21 Δ ω h) (b22 Δ ω h) h ω
        (List.replicate m (-α))
        (njConstState Δ ω h α i0).1 (njConstState Δ ω h α i0).2
        (-α)).getD j ((0:ℝ), 0, 0)).2.1 =
      (njConstState Δ ω h α (i0 + j + 1)).2 := by
  intro m
  induction m with
  | zero =>
    intro i0 j hj
    exact absurd hj (by omega)
  | succ m ih =>
    intro i0 j hj
    rw [List.replicate_succ]
    match j with
    | 0 =>
      constructor
      · show ((njRecur _ _ _ _ _ _ _ _ h ω ((-α) :: List.replicate m (-α))
          _ _ (-α)).getD 0 ((0:ℝ), 0, 0)).1 = _
        simp only [njRecur, List.getD_cons_zero, Nat.add_zero]
        rfl
      · show ((njRecur _ _ _ _ _ _ _ _ h ω ((-α) :: List.replicate m (-α))
          _ _ (-α)).getD 0 ((0:ℝ), 0, 0)).2.1 = _
        simp only [njRecur, List.getD_cons_zero, Nat.add_zero]
        rfl
    | j' + 1 =>
      have hj' : j' < m := by omega
      have key := ih (i0 + 1) j' hj'
      have harith : i0 + 1 + j' + 1 = i0 + (j' + 1) + 1 := by omega
      rw [harith] at key
      constructor
      · simp only [njRecur, List.getD_cons_succ]
        exact key.1
      · simp only [njRecur, List.getD_cons_succ]
        exact key.2

/-- The relative displacement returned by the engine on the constant input
of the step-load test equals the first state component of `njConstState`. -/
theorem dispModel_eq (i : ℕ) (hi : i < 100) :
    (njResponse (Vector.from_vec (List.replicate 100 (-3)))
        0.01 (2 * Real.pi / 0.1) 0.05).dispAt i =
      (njConstState 0.01 (2 * Real.pi / 0.1) 0.05 3 i).1 := by
  match i, hi with
  | 0, _ =>
    rw [SdofResponse.dispAt, njResponse_disp]
    rfl
  | j + 1, hi =>
    rw [SdofResponse.dispAt, njResponse_disp]
    show (0 :: (njSteps (Vector.from_vec (List.replicate 100 (-3)))
        0.01 (2 * Real.pi / 0.1) 0.05).map fun s => s.1).getD (j + 1) 0 = _
    rw [List.getD_cons_succ]
    have hmap := getD_map_comp (fun s : ℝ × ℝ × ℝ => s.1)
      (njSteps (Vector.from_vec (List.replicate 100 (-3)))
        0.01 (2 * Real.pi / 0.1) 0.05) j ((0:ℝ), (0:ℝ), (0:ℝ))
    rw [hmap]
    have hsteps : njSteps (Vector.from_vec (List.replicate 100 (-3)))
        0.01 (2 * Real.pi / 0.1) 0.05 =
        njRecur (a11 0.01 (2 * Real.pi / 0.1) 0.05)
          (a12 0.01 (2 * Real.pi / 0.1) 0.05)
          (a21 0.01 (2 * Real.pi / 0.1) 0.05)
          (a22 0.01 (2 * Real.pi / 0.1) 0.05)
          (b11 0.01 (2 * Real.pi / 0.1) 0.05)
          (b12 0.01 (2 * Real.pi / 0.1) 0.05)
          (b21 0.01 (2 * Real.pi / 0.1) 0.05)
          (b22 0.01 (2 * Real.pi / 0.1) 0.05)
          0.05 (2 * Real.pi / 0.1)
          (List.replicate 99 (-3)) 0 0 (-3) := by
      unfold njSteps
      rw [show (Vector.from_vec (List.replicate 100 (-3 : ℝ))).data =
        List.replicate 100 (-3 : ℝ) from rfl]
      rw [show (List.replicate 100 (-3 : ℝ)) =
        (-3 : ℝ) :: List.replicate 99 (-3) from rfl]
      rfl
    rw [hsteps]
    have key := njRecur_const 0.01 (2 * Real.pi / 0.1) 0.05 3 99 0 j
      (by omega)
    have harith : 0 + j + 1 = j + 1 := by omega
    rw [harith] at key
    exact key.1

theorem Ball.pos_of_mem {B : Ball} {x : ℝ} (h : B.mem x)
    (hp : 0 < B.c - B.r) : 0 < x := by
  have h1 := (abs_le.mp h).1
  have h2 : (0 : ℝ) < ((B.c - B.r : ℚ) : ℝ) := by exact_mod_cast hp
  push_cast at h1 h2
  linarith

section StepLoadAssembly

theorem hOneCast : ((1 : ℚ) : ℝ) = 1 := by norm_num

theorem hNeg3Cast : (-(3 : ℝ)) = ((-3 : ℚ) : ℝ) := by norm_num

def oneBall : Ball := Ball.ofRat 1

def bsum1Ball : Ball := (b11Ball.add b12Ball).mul (Ball.ofRat (-3))

def bsum2Ball : Ball := (b21Ball.add b22Ball).mul (Ball.ofRat (-3))

def detBall : Ball :=
  ((oneBall.sub a11Ball).mul (oneBall.sub a22Ball)).sub
    (a12Ball.mul a21Ball)

def yst1Ball : Ball :=
  (((oneBall.sub a22Ball).mul bsum1Ball).add
    (a12Ball.mul bsum2Ball)).mul detBall.inv

def yst2Ball : Ball :=
  ((a21Ball.mul bsum1Ball).add
    ((oneBall.sub a11Ball).mul bsum2Ball)).mul detBall.inv

def ABall : Ball := (Ball.ofRat 3).mul ((omBall.mul omBall).inv)

def D1Ball : Ball := yst1Ball.sub ABall

def D2Ball : Ball := (yst1Ball.neg).add ABall

def D3Ball : Ball :=
  ((kBall.mul (yst1Ball.neg)).add (omdInvB.mul (yst2Ball.neg))).add
    (ABall.mul kBall)

theorem mem_bsum1Ball : bsum1Ball.mem
    (Bsum1 0.01 (2 * Real.pi / 0.1) 0.05 3) := by
  simp only [Bsum1]
  rw [hNeg3Cast]
  exact Ball.mem_mul (Ball.mem_add mem_b11Ball mem_b12Ball)
    (Ball.mem_ofRat _)

theorem mem_bsum2Ball : bsum2Ball.mem
    (Bsum2 0.01 (2 * Real.pi / 0.1) 0.05 3) := by
  simp only [Bsum2]
  rw [hNeg3Cast]
  exact Ball.mem_mul (Ball.mem_add mem_b21Ball mem_b22Ball)
    (Ball.mem_ofRat _)

theorem mem_detBall : detBall.mem (detM 0.01 (2 * Real.pi / 0.1) 0.05) := by
  simp only [detM]
  rw [show (1 : ℝ) = ((1 : ℚ) : ℝ) from hOneCast.symm]
  exact Ball.mem_sub
    (Ball.mem_mul (Ball.mem_sub (Ball.mem_ofRat _) mem_a11Ball)
      (Ball.mem_sub (Ball.mem_ofRat _) mem_a22Ball))
    (Ball.mem_mul mem_a12Ball mem_a21Ball)

theorem detBall_pos : 0 < detBall.c - detBall.r := by
  norm_num [detBall, oneBall, a11Ball, a12Ball, a21Ball, a22Ball, kBall,
    hRB, sqInvB, omBall, omdBall, omdInvB, expCBall, expBall, expTaylor,
    sinThetaBall, cosThetaBall, sinB4, cosB4, sinB3, cosB3, sinB2, cosB2,
    sinB1, cosB1, sinB0, cosB0, sinDouble, cosDouble, sinSmallBall,
    cosSmallBall, phiBall, thetaBall, sqrtBall, piBall, Ball.mul, Ball.add,
    Ball.sub, Ball.neg, Ball.inv, Ball.ofRat, Ball.widen, qabs,
    Finset.sum_range_succ, Nat.factorial]

theorem A_val : (3 : ℝ) / ((2 * Real.pi / 0.1) * (2 * Real.pi / 0.1)) =
    ((3 : ℚ) : ℝ) * (omC * omC)⁻¹ := by
  simp only [omC]
  rw [homega20]
  push_cast
  ring

theorem k_val : (0.05 : ℝ) / Real.sqrt (1 - 0.05 * 0.05) =
    ((1 / 20 : ℚ) : ℝ) * sq399⁻¹ := by
  simp only [sq399]
  rw [hsqrt399]
  push_cast
  ring

theorem kdamp_val : kdamp 0.05 = ((1 / 20 : ℚ) : ℝ) * sq399⁻¹ := by
  simp only [kdamp, sq399]
  rw [hsqrt399]
  push_cast
  ring

theorem w1c_val : w1c (2 * Real.pi / 0.1) 0.05 = (sq399 * omC)⁻¹ := by
  simp only [w1c, omega_dash, sq399, omC]
  rw [hsqrt399, homega20, one_div]

theorem mem_ABall : ABall.mem (((3 : ℚ) : ℝ) * (omC * omC)⁻¹) :=
  Ball.mem_mul (Ball.mem_ofRat 3)
    (Ball.mem_inv (Ball.mem_mul mem_omB mem_omB) om2Ball_pos)

theorem mem_yst1Ball :
    yst1Ball.mem (yst1 0.01 (2 * Real.pi / 0.1) 0.05 3) := by
  simp only [yst1]
  rw [div_eq_mul_inv]
  rw [show (1 : ℝ) = ((1 : ℚ) : ℝ) from hOneCast.symm]
  exact Ball.mem_mul
    (Ball.mem_add
      (Ball.mem_mul (Ball.mem_sub (Ball.mem_ofRat _) mem_a22Ball)
        mem_bsum1Ball)
      (Ball.mem_mul mem_a12Ball mem_bsum2Ball))
    (Ball.mem_inv mem_detBall detBall_pos)

theorem mem_yst2Ball :
    yst2Ball.mem (yst2 0.01 (2 * Real.pi / 0.1) 0.05 3) := by
  simp only [yst2]
  rw [div_eq_mul_inv]
  rw [show (1 : ℝ) = ((1 : ℚ) : ℝ) from hOneCast.symm]
  exact Ball.mem_mul
    (Ball.mem_add (Ball.mem_mul mem_a21Ball mem_bsum1Ball)
      (Ball.mem_mul (Ball.mem_sub (Ball.mem_ofRat _) mem_a11Ball)
        mem_bsum2Ball))
    (Ball.mem_inv mem_detBall detBall_pos)

theorem mem_D1Ball : D1Ball.mem
    (yst1 0.01 (2 * Real.pi / 0.1) 0.05 3 - ((3 : ℚ) : ℝ) * (omC * omC)⁻¹) :=
  Ball.mem_sub mem_yst1Ball mem_ABall

theorem mem_D2Ball : D2Ball.mem
    (Pc 0.01 (2 * Real.pi / 0.1) 0.05 3 + ((3 : ℚ) : ℝ) * (omC * omC)⁻¹) := by
  simp only [Pc]
  exact Ball.mem_add (Ball.mem_neg mem_yst1Ball) mem_ABall

theorem mem_D3Ball : D3Ball.mem
    (Qc 0.01 (2 * Real.pi / 0.1) 0.05 3 +
      ((3 : ℚ) : ℝ) * (omC * omC)⁻¹ * (((1 / 20 : ℚ) : ℝ) * sq399⁻¹)) := by
  simp only [Qc, Pc, Rc]
  rw [kdamp_val, w1c_val]
  exact Ball.mem_add
    (Ball.mem_add (Ball.mem_mul mem_kBall (Ball.mem_neg mem_yst1Ball))
      (Ball.mem_mul mem_omdInvB (Ball.mem_neg mem_yst2Ball)))
    (Ball.mem_mul mem_ABall mem_kBall)

set_option maxHeartbeats 4000000 in
theorem final_sum_lt :
    (qabs D1Ball.c + D1Ball.r) + ((qabs D2Ball.c + D2Ball.r) +
      (qabs D3Ball.c + D3Ball.r)) < 1 / 10000 := by
  norm_num [D1Ball, D2Ball, D3Ball, yst1Ball, yst2Ball, ABall, detBall,
    bsum1Ball, bsum2Ball, oneBall, b11Ball, b12Ball, b21Ball, b22Ball,
    t1Ball, csBall, odBall, om2InvB, om3dtInvB, om2dtInvB, omInvB,
    a11Ball, a12Ball, a21Ball, a22Ball, kBall, hRB, sqInvB, omBall,
    omdBall, omdInvB, expCBall, expBall, expTaylor, sinThetaBall,
    cosThetaBall, sinB4, cosB4, sinB3, cosB3, sinB2, cosB2, sinB1, cosB1,
    sinB0, cosB0, sinDouble, cosDouble, sinSmallBall, cosSmallBall,
    phiBall, thetaBall, sqrtBall, piBall, Ball.mul, Ball.add, Ball.sub,
    Ball.neg, Ball.inv, Ball.ofRat, Ball.widen, qabs,
    Finset.sum_range_succ, Nat.factorial]

/-- C2 — step-load closed form: on the constant input `g ≡ −3` of length
100 with `ω = 2π/0.1`, `h = 0.05`, `Δt = 0.01`, the relative displacement
computed by the engine is within `1e-4` of the analytic step response
`α/ω²·(1 − e^{−hω·iΔt}(cos(ω′·iΔt) + h/√(1−h²)·sin(ω′·iΔt)))` at every
step `i < 100`. -/
theorem nigam_jennings_step_load_tolerance (i : ℕ) (hi : i < 100) :
    |(njResponse (Vector.from_vec (List.replicate 100 (-3)))
        0.01 (2 * Real.pi / 0.1) 0.05).dispAt i -
      3 / ((2 * Real.pi / 0.1) * (2 * Real.pi / 0.1)) *
        (1 - Real.exp (-(0.05 * (2 * Real.pi / 0.1) * ((i : ℝ) * 0.01))) *
          (Real.cos (Real.sqrt (1 - 0.05 * 0.05) * (2 * Real.pi / 0.1) *
              ((i : ℝ) * 0.01)) +
            0.05 / Real.sqrt (1 - 0.05 * 0.05) *
              Real.sin (Real.sqrt (1 - 0.05 * 0.05) * (2 * Real.pi / 0.1) *
                ((i : ℝ) * 0.01))))| < 1e-4 := by
  have homega_pos : (0 : ℝ) < 2 * Real.pi / 0.1 := by
    rw [homega20]
    positivity
  have hdetne : detM 0.01 (2 * Real.pi / 0.1) 0.05 ≠ 0 :=
    (Ball.pos_of_mem mem_detBall detBall_pos).ne'
  rw [dispModel_eq i hi]
  rw [(njConstState_closed 0.01 (2 * Real.pi / 0.1) 0.05 3 (by norm_num)
    (by norm_num) homega_pos hdetne i).1]
  have hexpstep : Real.exp (-(0.05 * (2 * Real.pi / 0.1) * ((i : ℝ) * 0.01))) =
      Real.exp (-0.05 * (2 * Real.pi / 0.1) * 0.01) ^ i := by
    rw [← Real.exp_nat_mul]
    congr 1
    push_cast
    ring
  rw [hexpstep]
  have hcosarg : Real.sqrt (1 - 0.05 * 0.05) * (2 * Real.pi / 0.1) *
      ((i : ℝ) * 0.01) =
      omega_dash (2 * Real.pi / 0.1) 0.05 * 0.01 * (i : ℝ) := by
    simp only [omega_dash]
    ring
  rw [hcosarg, A_val, k_val]
  have hring : yst1 0.01 (2 * Real.pi / 0.1) 0.05 3 +
      Real.exp (-0.05 * (2 * Real.pi / 0.1) * 0.01) ^ i *
        (Pc 0.01 (2 * Real.pi / 0.1) 0.05 3 *
            Real.cos (omega_dash (2 * Real.pi / 0.1) 0.05 * 0.01 * (i : ℝ)) +
          Qc 0.01 (2 * Real.pi / 0.1) 0.05 3 *
            Real.sin (omega_dash (2 * Real.pi / 0.1) 0.05 * 0.01 * (i : ℝ))) -
      ((3 : ℚ) : ℝ) * (omC * omC)⁻¹ *
        (1 - Real.exp (-0.05 * (2 * Real.pi / 0.1) * 0.01) ^ i *
          (Real.cos (omega_dash (2 * Real.pi / 0.1) 0.05 * 0.01 * (i : ℝ)) +
            ((1 / 20 : ℚ) : ℝ) * sq399⁻¹ *
              Real.sin (omega_dash (2 * Real.pi / 0.1) 0.05 * 0.01 *
                (i : ℝ)))) =
      (yst1 0.01 (2 * Real.pi / 0.1) 0.05 3 -
          ((3 : ℚ) : ℝ) * (omC * omC)⁻¹) +
        Real.exp (-0.05 * (2 * Real.pi / 0.1) * 0.01) ^ i *
          ((Pc 0.01 (2 * Real.pi / 0.1) 0.05 3 +
              ((3 : ℚ) : ℝ) * (omC * omC)⁻¹) *
            Real.cos (omega_dash (2 * Real.pi / 0.1) 0.05 * 0.01 * (i : ℝ)) +
          (Qc 0.01 (2 * Real.pi / 0.1) 0.05 3 +
              ((3 : ℚ) : ℝ) * (omC * omC)⁻¹ *
                (((1 / 20 : ℚ) : ℝ) * sq399⁻¹)) *
            Real.sin (omega_dash (2 * Real.pi / 0.1) 0.05 * 0.01 *
              (i : ℝ))) := by
    ring
  rw [hring]
  have hEpos : (0 : ℝ) < Real.exp (-0.05 * (2 * Real.pi / 0.1) * 0.01) :=
    Real.exp_pos _
  have hEle1 : Real.exp (-0.05 * (2 * Real.pi / 0.1) * 0.01) ≤ 1 := by
    rw [show (1 : ℝ) = Real.exp 0 from (Real.exp_zero).symm]
    apply Real.exp_le_exp.mpr
    rw [homega20]
    nlinarith [Real.pi_pos]
  have hEi0 : (0 : ℝ) ≤
      Real.exp (-0.05 * (2 * Real.pi / 0.1) * 0.01) ^ i :=
    pow_nonneg hEpos.le i
  have hEi1 : Real.exp (-0.05 * (2 * Real.pi / 0.1) * 0.01) ^ i ≤ 1 :=
    pow_le_one₀ hEpos.le hEle1
  have hC1 : |Real.cos (omega_dash (2 * Real.pi / 0.1) 0.05 * 0.01 *
      (i : ℝ))| ≤ 1 := Real.abs_cos_le_one _
  have hS1 : |Real.sin (omega_dash (2 * Real.pi / 0.1) 0.05 * 0.01 *
      (i : ℝ))| ≤ 1 := Real.abs_sin_le_one _
  have hU := Ball.abs_le_of_mem mem_D1Ball
  have hX := Ball.abs_le_of_mem mem_D2Ball
  have hY := Ball.abs_le_of_mem mem_D3Ball
  have hXnn := abs_nonneg (Pc 0.01 (2 * Real.pi / 0.1) 0.05 3 +
    ((3 : ℚ) : ℝ) * (omC * omC)⁻¹)
  have hYnn := abs_nonneg (Qc 0.01 (2 * Real.pi / 0.1) 0.05 3 +
    ((3 : ℚ) : ℝ) * (omC * omC)⁻¹ * (((1 / 20 : ℚ) : ℝ) * sq399⁻¹))
  have hinner : |(Pc 0.01 (2 * Real.pi / 0.1) 0.05 3 +
        ((3 : ℚ) : ℝ) * (omC * omC)⁻¹) *
      Real.cos (omega_dash (2 * Real.pi / 0.1) 0.05 * 0.01 * (i : ℝ)) +
      (Qc 0.01 (2 * Real.pi / 0.1) 0.05 3 +
        ((3 : ℚ) : ℝ) * (omC * omC)⁻¹ * (((1 / 20 : ℚ) : ℝ) * sq399⁻¹)) *
      Real.sin (omega_dash (2 * Real.pi / 0.1) 0.05 * 0.01 * (i : ℝ))| ≤
      |Pc 0.01 (2 * Real.pi / 0.1) 0.05 3 +
        ((3 : ℚ) : ℝ) * (omC * omC)⁻¹| +
      |Qc 0.01 (2 * Real.pi / 0.1) 0.05 3 +
        ((3 : ℚ) : ℝ) * (omC * omC)⁻¹ * (((1 / 20 : ℚ) : ℝ) * sq399⁻¹)| := by
    calc _ ≤ |(Pc 0.01 (2 * Real.pi / 0.1) 0.05 3 +
          ((3 : ℚ) : ℝ) * (omC * omC)⁻¹) *
        Real.cos (omega_dash (2 * Real.pi / 0.1) 0.05 * 0.01 * (i : ℝ))| +
        |(Qc 0.01 (2 * Real.pi / 0.1) 0.05 3 +
          ((3 : ℚ) : ℝ) * (omC * omC)⁻¹ * (((1 / 20 : ℚ) : ℝ) * sq399⁻¹)) *
        Real.sin (omega_dash (2 * Real.pi / 0.1) 0.05 * 0.01 * (i : ℝ))| :=
          abs_add _ _
      _ ≤ _ := by
          rw [abs_mul, abs_mul]
          have e1 := mul_le_mul_of_nonneg_left hC1 hXnn
          have e2 := mul_le_mul_of_nonneg_left hS1 hYnn
          nlinarith
  calc |(yst1 0.01 (2 * Real.pi / 0.1) 0.05 3 -
        ((3 : ℚ) : ℝ) * (omC * omC)⁻¹) +
      Real.exp (-0.05 * (2 * Real.pi / 0.1) * 0.01) ^ i *
        ((Pc 0.01 (2 * Real.pi / 0.1) 0.05 3 +
            ((3 : ℚ) : ℝ) * (omC * omC)⁻¹) *
          Real.cos (omega_dash (2 * Real.pi / 0.1) 0.05 * 0.01 * (i : ℝ)) +
        (Qc 0.01 (2 * Real.pi / 0.1) 0.05 3 +
            ((3 : ℚ) : ℝ) * (omC * omC)⁻¹ *
              (((1 / 20 : ℚ) : ℝ) * sq399⁻¹)) *
          Real.sin (omega_dash (2 * Real.pi / 0.1) 0.05 * 0.01 * (i : ℝ)))|
      ≤ |yst1 0.01 (2 * Real.pi / 0.1) 0.05 3 -
          ((3 : ℚ) : ℝ) * (omC * omC)⁻¹| +
        |Real.exp (-0.05 * (2 * Real.pi / 0.1) * 0.01) ^ i *
          ((Pc 0.01 (2 * Real.pi / 0.1) 0.05 3 +
              ((3 : ℚ) : ℝ) * (omC * omC)⁻¹) *
            Real.cos (omega_dash (2 * Real.pi / 0.1) 0.05 * 0.01 * (i : ℝ)) +
          (Qc 0.01 (2 * Real.pi / 0.1) 0.05 3 +
              ((3 : ℚ) : ℝ) * (omC * omC)⁻¹ *
                (((1 / 20 : ℚ) : ℝ) * sq399⁻¹)) *
            Real.sin (omega_dash (2 * Real.pi / 0.1) 0.05 * 0.01 *
              (i : ℝ)))| := abs_add _ _
    _ ≤ |yst1 0.01 (2 * Real.pi / 0.1) 0.05 3 -
          ((3 : ℚ) : ℝ) * (omC * omC)⁻¹| +
        (|Pc 0.01 (2 * Real.pi / 0.1) 0.05 3 +
            ((3 : ℚ) : ℝ) * (omC * omC)⁻¹| +
          |Qc 0.01 (2 * Real.pi / 0.1) 0.05 3 +
            ((3 : ℚ) : ℝ) * (omC * omC)⁻¹ *
              (((1 / 20 : ℚ) : ℝ) * sq399⁻¹)|) := by
        have hsplit : |Real.exp (-0.05 * (2 * Real.pi / 0.1) * 0.01) ^ i *
            ((Pc 0.01 (2 * Real.pi / 0.1) 0.05 3 +
                ((3 : ℚ) : ℝ) * (omC * omC)⁻¹) *
              Real.cos (omega_dash (2 * Real.pi / 0.1) 0.05 * 0.01 *
                (i : ℝ)) +
            (Qc 0.01 (2 * Real.pi / 0.1) 0.05 3 +
                ((3 : ℚ) : ℝ) * (omC * omC)⁻¹ *
                  (((1 / 20 : ℚ) : ℝ) * sq399⁻¹)) *
              Real.sin (omega_dash (2 * Real.pi / 0.1) 0.05 * 0.01 *
                (i : ℝ)))| =
            Real.exp (-0.05 * (2 * Real.pi / 0.1) * 0.01) ^ i *
            |(Pc 0.01 (2 * Real.pi / 0.1) 0.05 3 +
                ((3 : ℚ) : ℝ) * (omC * omC)⁻¹) *
              Real.cos (omega_dash (2 * Real.pi / 0.1) 0.05 * 0.01 *
                (i : ℝ)) +
            (Qc 0.01 (2 * Real.pi / 0.1) 0.05 3 +
                ((3 : ℚ) : ℝ) * (omC * omC)⁻¹ *
                  (((1 / 20 : ℚ) : ℝ) * sq399⁻¹)) *
              Real.sin (omega_dash (2 * Real.pi / 0.1) 0.05 * 0.01 *
                (i : ℝ))| := by
          rw [abs_mul, abs_of_nonneg hEi0]
        rw [hsplit]
        have := mul_le_mul hEi1 hinner (abs_nonneg _) zero_le_one
        linarith
    _ ≤ ((qabs D1Ball.c + D1Ball.r : ℚ) : ℝ) +
        (((qabs D2Ball.c + D2Ball.r : ℚ) : ℝ) +
          ((qabs D3Ball.c + D3Ball.r : ℚ) : ℝ)) := by
        have := add_le_add hU (add_le_add hX hY)
        linarith
    _ < 1e-4 := by
        have hq : (((qabs D1Ball.c + D1Ball.r) + ((qabs D2Ball.c +
            D2Ball.r) + (qabs D3Ball.c + D3Ball.r)) : ℚ) : ℝ) <
            ((1 / 10000 : ℚ) : ℝ) := by
          exact_mod_cast final_sum_lt
        push_cast at hq
        norm_num at hq ⊢
        linarith

/-- Witness for C2 at the concrete step `i = 50`. -/
theorem nigam_jennings_step_load_tolerance_witness :
    |(njResponse (Vector.from_vec (List.replicate 100 (-3)))
        0.01 (2 * Real.pi / 0.1) 0.05).dispAt 50 -
      3 / ((2 * Real.pi / 0.1) * (2 * Real.pi / 0.1)) *
        (1 - Real.exp (-(0.05 * (2 * Real.pi / 0.1) * ((50 : ℕ) * 0.01))) *
          (Real.cos (Real.sqrt (1 - 0.05 * 0.05) * (2 * Real.pi / 0.1) *
              ((50 : ℕ) * 0.01)) +
            0.05 / Real.sqrt (1 - 0.05 * 0.05) *
              Real.sin (Real.sqrt (1 - 0.05 * 0.05) * (2 * Real.pi / 0.1) *
                ((50 : ℕ) * 0.01))))| < 1e-4 :=
  nigam_jennings_step_load_tolerance 50 (by norm_num)

end StepLoadAssembly

end StFunc
